import Mathlib

/-!
# Verification of the concurrent resizable hash table

Shallow embedding of `src/project/ha_6/multi_threading_table.py`
(`MultiThreadingHashTable`) and `src/project/ha_5/hash_table.py` (`HashTable`)
together with proofs about the embedded operations.

Both classes store separate-chaining buckets, an entry count (`_size`), the
current bucket-array length (`_table_size`) and a load factor.  We model the
shared state of one table as a record over an abstract key type with decidable
equality and an abstract Python hash function `pyhash : Key → Option Int`
(`none` models a key on which Python's `hash` raises `TypeError`, i.e. an
unhashable key).  All claims are about single-threaded executions, so the lock
manipulations of `ha_6` (which only order concurrent accesses) have no
observable effect and are not part of the state.
-/

namespace HashTableSpec

/-- The Python exceptions that the embedded code can raise.
`fuelBudget` is not a Python exception: it is the out-of-fuel marker used by
the embedding of `ha_5.HashTable.__setitem__`, whose resize re-inserts entries
through recursive `self[key] = value` calls (see `htSetItem`). -/
inductive Err where
  | keyError
  | typeError
  | valueError
  | indexError
  | zeroDivisionError
  | fuelBudget
  deriving DecidableEq, Repr

/-- The mutable state shared by `ha_5.HashTable` and
`ha_6.MultiThreadingHashTable`:
`size` is `_size` (number of key-value pairs), `table_size` is `_table_size`
(length of the bucket array), `load_factor` is `_load_factor`, and `buckets`
is `_buckets`, a list of separate-chaining buckets of `(key, value)` pairs.
The Python load factor is a float; all load factors exercised by the claims
(3/4, 1/10, ...) and all loads `size / table_size` compared against them are
exact in both binary floating point and `ℚ`, so we use `ℚ`. -/
structure Table (Key Value : Type) where
  size : Nat
  table_size : Nat
  load_factor : ℚ
  buckets : List (List (Key × Value))
  deriving Repr, DecidableEq

variable {Key Value : Type} [DecidableEq Key]

/-- `ha_5.HashTable.__init__` / `ha_6.MultiThreadingHashTable.__init__`
(identical argument validation in both files):
raise `ValueError` if `initial_size < 1`, raise `ValueError` if not
`0 < load_factor < 1`, else create `initial_size` empty buckets with
`_size = 0`. -/
def mkTable (initial_size : Int) (load_factor : ℚ) :
    Except Err (Table Key Value) :=
  if initial_size < 1 then .error .valueError
  else if ¬(0 < load_factor ∧ load_factor < 1) then .error .valueError
  else .ok { size := 0
             table_size := initial_size.toNat
             load_factor := load_factor
             buckets := List.replicate initial_size.toNat [] }

/-- `_hash` (identical in both files): `abs(hash(key)) % self._table_size`.
`TypeError` when the key is unhashable, `ZeroDivisionError` when
`_table_size = 0` (unreachable from the constructor, kept for faithfulness). -/
def pyHashIdx (pyhash : Key → Option Int) (table_size : Nat) (k : Key) :
    Except Err Nat :=
  match pyhash k with
  | none => .error .typeError
  | some h =>
      if table_size = 0 then .error .zeroDivisionError
      else .ok (h.natAbs % table_size)

/-- `_resize_needed` (identical in both files):
`self._size / self._table_size > self._load_factor`.
`mkRat t.size t.table_size` is the exact rational `size / table_size`
(for `table_size ≠ 0`, which the constructor guarantees); every comparison
the claims exercise is exact in binary floating point as well, so the
rational comparison coincides with Python's float comparison. -/
def resizeNeeded (t : Table Key Value) : Bool :=
  decide (t.load_factor < mkRat t.size t.table_size)

/-- The chain scan of `__getitem__` (identical in both files):
return the value of the first entry of the bucket whose key equals `k`. -/
def bucketFind (k : Key) : List (Key × Value) → Option Value
  | [] => none
  | (ek, v) :: rest => if ek = k then some v else bucketFind k rest

/-- The chain scan of `__setitem__` (identical in both files): replace the
value of the first entry whose key equals `k` in place, or append `(k, v)`.
The boolean is `true` when a new entry was appended (`self._size += 1`). -/
def bucketSet (k : Key) (v : Value) : List (Key × Value) → List (Key × Value) × Bool
  | [] => ([(k, v)], true)
  | (ek, ev) :: rest =>
      if ek = k then ((k, v) :: rest, false)
      else
        let r := bucketSet k v rest
        ((ek, ev) :: r.1, r.2)

/-- The chain scan of `__delitem__` (identical in both files): delete the
first entry whose key equals `k`.  The boolean is `true` when an entry was
found and removed (`self._size -= 1`), `false` when `KeyError` is raised. -/
def bucketDel (k : Key) : List (Key × Value) → List (Key × Value) × Bool
  | [] => ([], false)
  | (ek, ev) :: rest =>
      if ek = k then (rest, true)
      else
        let r := bucketDel k rest
        ((ek, ev) :: r.1, r.2)

/-- All stored entries, in bucket order: the flattening
`for bucket in self._buckets: for (key, value) in bucket: ...` used by
`_resize`, `__iter__` and `__repr__`. -/
def entries (t : Table Key Value) : List (Key × Value) :=
  t.buckets.flatten

/-- `__getitem__` (textually identical in `ha_5` and `ha_6`, the latter adds
no locking on the read path): hash the key, read the bucket, scan the chain,
raise `KeyError` if the key is absent. -/
def getItem (pyhash : Key → Option Int) (t : Table Key Value) (k : Key) :
    Except Err Value :=
  match pyHashIdx pyhash t.table_size k with
  | .error e => .error e
  | .ok idx =>
      if hlt : idx < t.buckets.length then
        match bucketFind k t.buckets[idx] with
        | some v => .ok v
        | none => .error .keyError
      else .error .indexError

/-- `__delitem__` (identical chain logic in `ha_5` and `ha_6`): hash the key,
scan the bucket; if found remove the entry and decrement `_size`, else raise
`KeyError`.  The post-state is returned together with the error, so "no side
effect before the error" is a provable statement rather than a modelling
choice.  (`_size` is a Python int; the `Nat` subtraction below agrees with it
whenever the removed entry was actually stored, which the invariant
guarantees.) -/
def delItem (pyhash : Key → Option Int) (t : Table Key Value) (k : Key) :
    Table Key Value × Option Err :=
  match pyHashIdx pyhash t.table_size k with
  | .error e => (t, some e)
  | .ok idx =>
      if hlt : idx < t.buckets.length then
        let r := bucketDel k t.buckets[idx]
        if r.2 then
          ({ t with buckets := t.buckets.set idx r.1, size := t.size - 1 }, none)
        else (t, some .keyError)
      else (t, some .indexError)

/-- The insertion step shared verbatim by the two `__setitem__`
implementations, executed after the resize check: hash the key (under the
possibly just-updated `_table_size`), scan the bucket, replace in place or
append and increment `_size`. -/
def insertScan (pyhash : Key → Option Int) (t : Table Key Value) (k : Key)
    (v : Value) : Table Key Value × Option Err :=
  match pyHashIdx pyhash t.table_size k with
  | .error e => (t, some e)
  | .ok idx =>
      if hlt : idx < t.buckets.length then
        let r := bucketSet k v t.buckets[idx]
        ({ t with buckets := t.buckets.set idx r.1,
                  size := if r.2 then t.size + 1 else t.size }, none)
      else (t, some .indexError)

/-- The re-insertion loop of `ha_6.MultiThreadingHashTable._resize`:
`for bucket in old_buckets: for key, value in bucket:` — compute
`self._hash(key)` under the already-installed new size, append the entry to
its new bucket, and count `total_elements`. -/
def reinsertLoop (pyhash : Key → Option Int) (newSize : Nat) :
    List (Key × Value) → List (List (Key × Value)) → Nat →
    Except Err (List (List (Key × Value)) × Nat)
  | [], bs, total => .ok (bs, total)
  | (k, v) :: rest, bs, total =>
      match pyhash k with
      | none => .error .typeError
      | some h =>
          if newSize = 0 then .error .zeroDivisionError
          else
            let idx := h.natAbs % newSize
            if hlt : idx < bs.length then
              reinsertLoop pyhash newSize rest
                (bs.set idx (bs[idx] ++ [(k, v)])) (total + 1)
            else .error .indexError

/-- `ha_6.MultiThreadingHashTable._resize`: return immediately when
`not self._resize_needed()`; otherwise snapshot the buckets, install
`new_size` with fresh empty buckets and `_size = 0`, re-insert every
snapshotted entry under the new size, and set `_size` to the recomputed
`total_elements`.  A failing re-insertion (only possible outside the table
invariant) raises out of the routine in Python; the embedding reports the
same exception. -/
def mtResize (pyhash : Key → Option Int) (t : Table Key Value) (newSize : Nat) :
    Except Err (Table Key Value) :=
  if ¬resizeNeeded t then .ok t
  else
    match reinsertLoop pyhash newSize (entries t)
        (List.replicate newSize ([] : List (Key × Value))) 0 with
    | .error e => .error e
    | .ok (bs, total) =>
        .ok { t with table_size := newSize, buckets := bs, size := total }

/-- `ha_6.MultiThreadingHashTable.__setitem__`: under the resize lock, check
`_resize_needed` and if so call `_resize(self._table_size.value * 2)`; then
hash the key under the current size and run the chain scan.  As in `delItem`
the post-state is always returned.  A `TypeError` on an unhashable key is
raised only after the resize step, so the resized state is the post-state of
the failing call.  (If `_resize` itself raised — impossible for states
satisfying the table invariant — the Python object would be left mid-resize;
that unreachable post-state is returned here as the pre-state.) -/
def mtSetItem (pyhash : Key → Option Int) (t : Table Key Value) (k : Key)
    (v : Value) : Table Key Value × Option Err :=
  if resizeNeeded t then
    match mtResize pyhash t (t.table_size * 2) with
    | .error e => (t, some e)
    | .ok t1 => insertScan pyhash t1 k v
  else insertScan pyhash t k v

/-- `ha_6.MultiThreadingHashTable.__contains__`: hash and scan under
`try: ... except IndexError: return False`.  Only `IndexError` is caught;
a `TypeError` from `hash(key)` (unhashable key) propagates. -/
def mtContains (pyhash : Key → Option Int) (t : Table Key Value) (k : Key) :
    Except Err Bool :=
  match pyHashIdx pyhash t.table_size k with
  | .error .indexError => .ok false
  | .error e => .error e
  | .ok idx =>
      if hlt : idx < t.buckets.length then
        .ok (t.buckets[idx].any fun p => p.1 = k)
      else .ok false

/-- `ha_5.HashTable.__contains__`: `try: self[key]; return True
except KeyError: return False`.  Only `KeyError` is caught. -/
def htContains (pyhash : Key → Option Int) (t : Table Key Value) (k : Key) :
    Except Err Bool :=
  match getItem pyhash t k with
  | .ok _ => .ok true
  | .error .keyError => .ok false
  | .error e => .error e

/-- The re-insertion loop of `ha_5.HashTable._resize`:
`for bucket in old_buckets: for key, value in bucket: self[key] = value`,
parametrized by the `self[key] = value` step so that the recursion below is
structural.  An exception from a nested `__setitem__` propagates out of the
loop. -/
def htReinsertList
    (step : Table Key Value → Key → Value → Table Key Value × Option Err) :
    List (Key × Value) → Table Key Value → Table Key Value × Option Err
  | [], t => (t, none)
  | (k, v) :: rest, t =>
      match step t k v with
      | (t1, none) => htReinsertList step rest t1
      | (t1, some e) => (t1, some e)

/-- `ha_5.HashTable.__setitem__`: check `_resize_needed` and if so call
`_resize(self._table_size * 2)` (inlined here: `_resize` snapshots the
buckets, installs the doubled size with fresh empty buckets and `_size = 0`,
and re-inserts every snapshotted entry via `self[key] = value`), then run
the chain scan.  Unlike `ha_6`, the re-insertion goes through recursive
`__setitem__` calls that re-check the load factor and can trigger further
(cascading) resizes.  Python's recursion is unbounded; the embedding indexes
it by a fuel that bounds the resize nesting depth and returns the non-Python
marker `Err.fuelBudget` when exhausted.  Every theorem below either holds
for all sufficiently large fuels or is conditional on the run not reporting
`fuelBudget`. -/
def htSetItem (pyhash : Key → Option Int) :
    Nat → Table Key Value → Key → Value → Table Key Value × Option Err
  | 0, t, _, _ => (t, some .fuelBudget)
  | fuel + 1, t, k, v =>
      match (if resizeNeeded t then
               htReinsertList (fun t1 k1 v1 => htSetItem pyhash fuel t1 k1 v1)
                 (entries t)
                 { t with
                   table_size := t.table_size * 2
                   buckets := List.replicate (t.table_size * 2)
                     ([] : List (Key × Value))
                   size := 0 }
             else (t, none)) with
      | (t1, some e) => (t1, some e)
      | (t1, none) => insertScan pyhash t1 k v

/-- `__len__` (identical in both files): return `self._size`. -/
def lenTable (t : Table Key Value) : Nat :=
  t.size

/-- A single-threaded client operation on a table. -/
inductive Op (Key Value : Type) where
  | set (k : Key) (v : Value)
  | get (k : Key)
  | del (k : Key)
  | contains (k : Key)
  | len
  deriving Repr

/-- The observable outcome of one operation: `unit` for a normal return of
`__setitem__`/`__delitem__`, a value for `__getitem__`, a boolean for
`__contains__`, a number for `__len__`, or the exception raised. -/
inductive Out (Value : Type) where
  | unit
  | val (v : Value)
  | bool (b : Bool)
  | nat (n : Nat)
  | err (e : Err)
  deriving DecidableEq, Repr

/-- One step of the `ha_6.MultiThreadingHashTable`: the post-state and the
observable outcome. -/
def mtStep (pyhash : Key → Option Int) (t : Table Key Value) :
    Op Key Value → Table Key Value × Out Value
  | .set k v =>
      let r := mtSetItem pyhash t k v
      (r.1, match r.2 with | none => .unit | some e => .err e)
  | .get k =>
      (t, match getItem pyhash t k with | .ok v => .val v | .error e => .err e)
  | .del k =>
      let r := delItem pyhash t k
      (r.1, match r.2 with | none => .unit | some e => .err e)
  | .contains k =>
      (t, match mtContains pyhash t k with | .ok b => .bool b | .error e => .err e)
  | .len => (t, .nat (lenTable t))

/-- One step of the `ha_5.HashTable` (the `fuel` only feeds `htSetItem`). -/
def htStep (pyhash : Key → Option Int) (fuel : Nat) (t : Table Key Value) :
    Op Key Value → Table Key Value × Out Value
  | .set k v =>
      let r := htSetItem pyhash fuel t k v
      (r.1, match r.2 with | none => .unit | some e => .err e)
  | .get k =>
      (t, match getItem pyhash t k with | .ok v => .val v | .error e => .err e)
  | .del k =>
      let r := delItem pyhash t k
      (r.1, match r.2 with | none => .unit | some e => .err e)
  | .contains k =>
      (t, match htContains pyhash t k with | .ok b => .bool b | .error e => .err e)
  | .len => (t, .nat (lenTable t))

/-- Run a list of operations on the `ha_6` table, recording after each step
the outcome and the then-current capacity `_table_size`. -/
def mtRun (pyhash : Key → Option Int) (t : Table Key Value) :
    List (Op Key Value) → List (Out Value × Nat)
  | [] => []
  | op :: rest =>
      let r := mtStep pyhash t op
      (r.2, r.1.table_size) :: mtRun pyhash r.1 rest

/-- The final state after running a list of operations on the `ha_6` table. -/
def mtRunTable (pyhash : Key → Option Int) (t : Table Key Value) :
    List (Op Key Value) → Table Key Value
  | [] => t
  | op :: rest => mtRunTable pyhash (mtStep pyhash t op).1 rest

/-- Run a list of operations on the `ha_5` table, recording after each step
the outcome and the then-current capacity `_table_size`. -/
def htRun (pyhash : Key → Option Int) (fuel : Nat) (t : Table Key Value) :
    List (Op Key Value) → List (Out Value × Nat)
  | [] => []
  | op :: rest =>
      let r := htStep pyhash fuel t op
      (r.2, r.1.table_size) :: htRun pyhash fuel r.1 rest

/-- Bucket number `i` of the table (empty when `i` is out of range). -/
def bucketAt (t : Table Key Value) (i : Nat) : List (Key × Value) :=
  t.buckets.getD i []

/-- The observable map of a table: the value stored for `k` in the bucket
`abs(hash(k)) % table_size`, if any.  This is the abstraction against which
all operations are specified. -/
def tfind (pyhash : Key → Option Int) (t : Table Key Value) (k : Key) :
    Option Value :=
  match pyhash k with
  | none => none
  | some h => bucketFind k (bucketAt t (h.natAbs % t.table_size))

/-- The well-formedness invariant of a table (established by the constructor
and preserved by every operation, `invariant_preserved` below):
the bucket array is non-empty and has length `_table_size`; `_size` counts
the stored entries; every live key is stored at most once in the whole
table; and every stored entry sits in the bucket selected by
`abs(hash(key)) % _table_size`, so in particular every stored key is
hashable.  The load factor is the one checked by the constructor. -/
structure Inv (pyhash : Key → Option Int) (t : Table Key Value) : Prop where
  ts_pos : 1 ≤ t.table_size
  buckets_len : t.buckets.length = t.table_size
  size_eq : t.size = (entries t).length
  nodup : ((entries t).map Prod.fst).Nodup
  placed : ∀ i p, p ∈ bucketAt t i →
      ∃ h, pyhash p.1 = some h ∧ h.natAbs % t.table_size = i
  lf_pos : 0 < t.load_factor
  lf_lt_one : t.load_factor < 1

/-! ## Chain-scan lemmas -/

theorem bucketFind_eq_none {l : List (Key × Value)} {k : Key} :
    bucketFind k l = none ↔ k ∉ l.map Prod.fst := by
  induction l with
  | nil => simp [bucketFind]
  | cons p rest ih =>
      obtain ⟨ek, ev⟩ := p
      by_cases hek : ek = k
      · subst hek
        simp [bucketFind]
      · simp [bucketFind, hek, ih, Ne.symm hek]

theorem mem_of_bucketFind_eq_some {l : List (Key × Value)} {k : Key} {v : Value}
    (h : bucketFind k l = some v) : (k, v) ∈ l := by
  induction l with
  | nil => simp [bucketFind] at h
  | cons p rest ih =>
      obtain ⟨ek, ev⟩ := p
      by_cases hek : ek = k
      · subst hek
        simp [bucketFind] at h
        simp [h]
      · simp [bucketFind, hek] at h
        exact List.mem_cons_of_mem _ (ih h)

theorem bucketFind_eq_some_of_mem {l : List (Key × Value)} {k : Key} {v : Value}
    (hnd : (l.map Prod.fst).Nodup) (hm : (k, v) ∈ l) :
    bucketFind k l = some v := by
  induction l with
  | nil => simp at hm
  | cons p rest ih =>
      obtain ⟨ek, ev⟩ := p
      simp only [List.map_cons, List.nodup_cons] at hnd
      rcases List.mem_cons.1 hm with heq | hmem
      · obtain ⟨h1, h2⟩ := Prod.mk.injEq .. ▸ heq
        simp_all [bucketFind]
      · have hek : ek ≠ k := by
          rintro rfl
          exact hnd.1 (List.mem_map.2 ⟨(ek, v), hmem, rfl⟩)
        simp [bucketFind, hek, ih hnd.2 hmem]

theorem bucketSet_of_not_mem {l : List (Key × Value)} {k : Key} {v : Value}
    (h : k ∉ l.map Prod.fst) : bucketSet k v l = (l ++ [(k, v)], true) := by
  induction l with
  | nil => simp [bucketSet]
  | cons p rest ih =>
      obtain ⟨ek, ev⟩ := p
      simp only [List.map_cons, List.mem_cons, not_or] at h
      simp [bucketSet, Ne.symm h.1, ih h.2]

theorem bucketSet_added_iff {l : List (Key × Value)} {k : Key} {v : Value} :
    (bucketSet k v l).2 = true ↔ k ∉ l.map Prod.fst := by
  induction l with
  | nil => simp [bucketSet]
  | cons p rest ih =>
      obtain ⟨ek, ev⟩ := p
      by_cases hek : ek = k
      · subst hek
        simp [bucketSet]
      · simp [bucketSet, hek, ih, Ne.symm hek]

theorem bucketSet_keys_of_mem {l : List (Key × Value)} {k : Key} {v : Value}
    (h : k ∈ l.map Prod.fst) :
    (bucketSet k v l).1.map Prod.fst = l.map Prod.fst := by
  induction l with
  | nil => simp at h
  | cons p rest ih =>
      obtain ⟨ek, ev⟩ := p
      by_cases hek : ek = k
      · subst hek
        simp [bucketSet]
      · simp only [List.map_cons, List.mem_cons] at h
        rcases h with h | h
        · exact absurd h.symm hek
        · simp [bucketSet, hek, ih h]

theorem bucketSet_length_of_mem {l : List (Key × Value)} {k : Key} {v : Value}
    (h : k ∈ l.map Prod.fst) : (bucketSet k v l).1.length = l.length := by
  induction l with
  | nil => simp at h
  | cons p rest ih =>
      obtain ⟨ek, ev⟩ := p
      by_cases hek : ek = k
      · subst hek
        simp [bucketSet]
      · simp only [List.map_cons, List.mem_cons] at h
        rcases h with h | h
        · exact absurd h.symm hek
        · simp [bucketSet, hek, ih h]

theorem bucketFind_bucketSet_self {l : List (Key × Value)} {k : Key} {v : Value} :
    bucketFind k (bucketSet k v l).1 = some v := by
  induction l with
  | nil => simp [bucketSet, bucketFind]
  | cons p rest ih =>
      obtain ⟨ek, ev⟩ := p
      by_cases hek : ek = k
      · subst hek
        simp [bucketSet, bucketFind]
      · simp [bucketSet, bucketFind, hek, ih]

theorem bucketFind_bucketSet_ne {l : List (Key × Value)} {k k' : Key} {v : Value}
    (h : k' ≠ k) : bucketFind k' (bucketSet k v l).1 = bucketFind k' l := by
  induction l with
  | nil => simp [bucketSet, bucketFind, Ne.symm h]
  | cons p rest ih =>
      obtain ⟨ek, ev⟩ := p
      by_cases hek : ek = k
      · subst hek
        simp [bucketSet, bucketFind, Ne.symm h]
      · by_cases hek' : ek = k'
        · subst hek'
          simp [bucketSet, bucketFind, hek]
        · simp [bucketSet, bucketFind, hek, hek', ih]

theorem mem_bucketSet {l : List (Key × Value)} {k : Key} {v : Value}
    {p : Key × Value} (h : p ∈ (bucketSet k v l).1) : p ∈ l ∨ p = (k, v) := by
  induction l with
  | nil => simp [bucketSet] at h; simp [h]
  | cons q rest ih =>
      obtain ⟨ek, ev⟩ := q
      by_cases hek : ek = k
      · subst hek
        simp only [bucketSet, if_pos rfl] at h
        rcases List.mem_cons.1 h with h | h
        · exact Or.inr h
        · exact Or.inl (List.mem_cons_of_mem _ h)
      · simp only [bucketSet, if_neg hek] at h
        rcases List.mem_cons.1 h with h | h
        · exact Or.inl (h ▸ List.mem_cons_self _ _)
        · rcases ih h with h | h
          · exact Or.inl (List.mem_cons_of_mem _ h)
          · exact Or.inr h

theorem bucketDel_of_not_mem {l : List (Key × Value)} {k : Key}
    (h : k ∉ l.map Prod.fst) : bucketDel k l = (l, false) := by
  induction l with
  | nil => simp [bucketDel]
  | cons p rest ih =>
      obtain ⟨ek, ev⟩ := p
      simp only [List.map_cons, List.mem_cons, not_or] at h
      simp [bucketDel, Ne.symm h.1, ih h.2]

theorem bucketDel_found_iff {l : List (Key × Value)} {k : Key} :
    (bucketDel k l).2 = true ↔ k ∈ l.map Prod.fst := by
  induction l with
  | nil => simp [bucketDel]
  | cons p rest ih =>
      obtain ⟨ek, ev⟩ := p
      by_cases hek : ek = k
      · subst hek
        simp [bucketDel]
      · simp [bucketDel, hek, ih, Ne.symm hek]

theorem bucketDel_sublist {l : List (Key × Value)} {k : Key} :
    (bucketDel k l).1.Sublist l := by
  induction l with
  | nil => simp [bucketDel]
  | cons p rest ih =>
      obtain ⟨ek, ev⟩ := p
      by_cases hek : ek = k
      · subst hek
        simp [bucketDel]
      · simpa [bucketDel, hek] using List.Sublist.cons₂ (ek, ev) ih

theorem bucketDel_length_of_mem {l : List (Key × Value)} {k : Key}
    (h : k ∈ l.map Prod.fst) : (bucketDel k l).1.length + 1 = l.length := by
  induction l with
  | nil => simp at h
  | cons p rest ih =>
      obtain ⟨ek, ev⟩ := p
      by_cases hek : ek = k
      · subst hek
        simp [bucketDel]
      · simp only [List.map_cons, List.mem_cons] at h
        rcases h with h | h
        · exact absurd h.symm hek
        · simp [bucketDel, hek, ih h]

theorem bucketFind_bucketDel_self {l : List (Key × Value)} {k : Key}
    (hnd : (l.map Prod.fst).Nodup) :
    bucketFind k (bucketDel k l).1 = none := by
  induction l with
  | nil => simp [bucketDel, bucketFind]
  | cons p rest ih =>
      obtain ⟨ek, ev⟩ := p
      simp only [List.map_cons, List.nodup_cons] at hnd
      by_cases hek : ek = k
      · subst hek
        simp only [bucketDel, if_pos rfl]
        exact bucketFind_eq_none.2 hnd.1
      · simp [bucketDel, bucketFind, hek, ih hnd.2]

theorem bucketFind_bucketDel_ne {l : List (Key × Value)} {k k' : Key}
    (h : k' ≠ k) :
    bucketFind k' (bucketDel k l).1 = bucketFind k' l := by
  induction l with
  | nil => simp [bucketDel]
  | cons p rest ih =>
      obtain ⟨ek, ev⟩ := p
      by_cases hek : ek = k
      · subst hek
        simp [bucketDel, bucketFind, Ne.symm h]
      · simp [bucketDel, bucketFind, hek, ih]

/-! ## Bucket-array lemmas -/

theorem flatten_split {α : Type _} (bs : List (List α)) (i : Nat)
    (hi : i < bs.length) :
    bs.flatten = (bs.take i).flatten ++ bs[i] ++ (bs.drop (i + 1)).flatten := by
  induction bs generalizing i with
  | nil => simp at hi
  | cons b rest ih =>
      cases i with
      | zero => simp
      | succ j =>
          simp only [List.length_cons, Nat.succ_lt_succ_iff] at hi
          simp [List.take_succ_cons, List.drop_succ_cons, ih j hi,
            List.append_assoc]

theorem flatten_set {α : Type _} (bs : List (List α)) (i : Nat)
    (hi : i < bs.length) (b' : List α) :
    (bs.set i b').flatten =
      (bs.take i).flatten ++ b' ++ (bs.drop (i + 1)).flatten := by
  induction bs generalizing i with
  | nil => simp at hi
  | cons b rest ih =>
      cases i with
      | zero => simp
      | succ j =>
          simp only [List.length_cons, Nat.succ_lt_succ_iff] at hi
          simp [List.set_cons_succ, List.take_succ_cons, List.drop_succ_cons,
            ih j hi, List.append_assoc]

theorem perm_insert_middle {α : Type _} (a : α) (l1 l2 l3 : List α) :
    (l1 ++ (l2 ++ [a]) ++ l3).Perm ((l1 ++ l2 ++ l3) ++ [a]) := by
  have h1 : l1 ++ (l2 ++ [a]) ++ l3 = (l1 ++ l2) ++ ([a] ++ l3) := by
    simp [List.append_assoc]
  have h2 : (l1 ++ l2 ++ l3) ++ [a] = (l1 ++ l2) ++ (l3 ++ [a]) := by
    simp [List.append_assoc]
  rw [h1, h2]
  exact List.Perm.append_left _ List.perm_append_comm

/-! ## The observable map under the invariant -/

variable {pyhash : Key → Option Int}

theorem getD_set_self {α : Type _} (l : List α) (i : Nat) (b d : α)
    (h : i < l.length) : (l.set i b).getD i d = b := by
  rw [List.getD_eq_getElem _ _ (by simpa using h)]
  simp

theorem getD_set_ne {α : Type _} (l : List α) {i j : Nat} (hne : i ≠ j)
    (b d : α) : (l.set i b).getD j d = l.getD j d := by
  by_cases hj : j < l.length
  · rw [List.getD_eq_getElem _ _ (by simpa using hj), List.getD_eq_getElem _ _ hj]
    exact List.getElem_set_ne hne _
  · rw [List.getD_eq_default _ _ (by simpa using Nat.le_of_not_lt hj),
      List.getD_eq_default _ _ (Nat.le_of_not_lt hj)]

theorem bucketAt_eq_getElem {t : Table Key Value} {i : Nat}
    (hi : i < t.buckets.length) : bucketAt t i = t.buckets[i] :=
  List.getD_eq_getElem _ _ hi

theorem bucketAt_set {t : Table Key Value} {i : Nat}
    (hi : i < t.buckets.length) (b' : List (Key × Value)) (s' : Nat) (j : Nat) :
    bucketAt { t with buckets := t.buckets.set i b', size := s' } j =
      if i = j then b' else bucketAt t j := by
  by_cases hij : i = j
  · subst hij
    simp only [if_pos rfl]
    exact getD_set_self _ _ _ _ hi
  · simp only [if_neg hij]
    exact getD_set_ne _ hij _ _

theorem Inv.idx_lt {t : Table Key Value} (hInv : Inv pyhash t) {h : Int} :
    h.natAbs % t.table_size < t.buckets.length := by
  rw [hInv.buckets_len]
  exact Nat.mod_lt _ (Nat.lt_of_lt_of_le Nat.zero_lt_one hInv.ts_pos)

theorem flatten_split_bucketAt (t : Table Key Value) {i : Nat}
    (hi : i < t.buckets.length) :
    entries t =
      (t.buckets.take i).flatten ++ bucketAt t i ++
        (t.buckets.drop (i + 1)).flatten := by
  rw [bucketAt_eq_getElem hi]
  exact flatten_split t.buckets i hi

theorem flatten_set_bucketAt (t : Table Key Value) {i : Nat}
    (hi : i < t.buckets.length) (b' : List (Key × Value)) :
    (t.buckets.set i b').flatten =
      (t.buckets.take i).flatten ++ b' ++ (t.buckets.drop (i + 1)).flatten :=
  flatten_set t.buckets i hi b'

theorem bucketAt_sublist (t : Table Key Value) (i : Nat) :
    (bucketAt t i).Sublist (entries t) := by
  by_cases hi : i < t.buckets.length
  · rw [flatten_split_bucketAt t hi, List.append_assoc]
    exact (List.sublist_append_left _ _).trans (List.sublist_append_right _ _)
  · rw [show bucketAt t i = t.buckets.getD i [] from rfl,
      List.getD_eq_default _ _ (Nat.le_of_not_lt hi)]
    exact List.nil_sublist _

theorem mem_entries_of_mem_bucketAt {t : Table Key Value} {i : Nat}
    {p : Key × Value} (hm : p ∈ bucketAt t i) : p ∈ entries t :=
  (bucketAt_sublist t i).subset hm

theorem Inv.bucket_keys_nodup {t : Table Key Value} (hInv : Inv pyhash t)
    (i : Nat) : ((bucketAt t i).map Prod.fst).Nodup :=
  hInv.nodup.sublist (List.Sublist.map Prod.fst (bucketAt_sublist t i))

theorem mem_bucketAt_of_mem_entries {t : Table Key Value} (hInv : Inv pyhash t)
    {k : Key} {v : Value} {h : Int} (hh : pyhash k = some h)
    (hm : (k, v) ∈ entries t) :
    (k, v) ∈ bucketAt t (h.natAbs % t.table_size) := by
  obtain ⟨b, hb, hmem⟩ := List.mem_flatten.1 hm
  obtain ⟨i, hi, rfl⟩ := List.mem_iff_getElem.1 hb
  have hmem' : (k, v) ∈ bucketAt t i := by
    rw [bucketAt_eq_getElem hi]
    exact hmem
  obtain ⟨h', hh', hidx⟩ := hInv.placed i (k, v) hmem'
  rw [hh] at hh'
  cases hh'
  rw [hidx]
  exact hmem'

theorem hashable_of_mem_entries {t : Table Key Value} (hInv : Inv pyhash t)
    {p : Key × Value} (hm : p ∈ entries t) : ∃ h, pyhash p.1 = some h := by
  obtain ⟨b, hb, hmem⟩ := List.mem_flatten.1 hm
  obtain ⟨i, hi, rfl⟩ := List.mem_iff_getElem.1 hb
  have hmem' : p ∈ bucketAt t i := by
    rw [bucketAt_eq_getElem hi]
    exact hmem
  obtain ⟨h', hh', _⟩ := hInv.placed i p hmem'
  exact ⟨h', hh'⟩

theorem tfind_hashable {t : Table Key Value} {k : Key} {h : Int}
    (hh : pyhash k = some h) :
    tfind pyhash t k = bucketFind k (bucketAt t (h.natAbs % t.table_size)) := by
  simp [tfind, hh]

theorem tfind_unhashable {t : Table Key Value} {k : Key}
    (hh : pyhash k = none) : tfind pyhash t k = none := by
  simp [tfind, hh]

theorem tfind_eq_some_iff {t : Table Key Value} (hInv : Inv pyhash t)
    {k : Key} {v : Value} :
    tfind pyhash t k = some v ↔ (k, v) ∈ entries t := by
  cases hh : pyhash k with
  | none =>
      rw [tfind_unhashable hh]
      constructor
      · intro hc; cases hc
      · intro hm
        obtain ⟨h', hh'⟩ := hashable_of_mem_entries hInv hm
        rw [hh] at hh'; cases hh'
  | some h =>
      rw [tfind_hashable hh]
      constructor
      · intro hf
        exact mem_entries_of_mem_bucketAt (mem_of_bucketFind_eq_some hf)
      · intro hm
        exact bucketFind_eq_some_of_mem (hInv.bucket_keys_nodup _)
          (mem_bucketAt_of_mem_entries hInv hh hm)

theorem tfind_eq_none_iff {t : Table Key Value} (hInv : Inv pyhash t)
    {k : Key} :
    tfind pyhash t k = none ↔ k ∉ (entries t).map Prod.fst := by
  constructor
  · intro hf hk
    obtain ⟨⟨k', v⟩, hm, hfst⟩ := List.mem_map.1 hk
    cases hfst
    rw [(tfind_eq_some_iff hInv).2 hm] at hf
    cases hf
  · intro hk
    cases hf : tfind pyhash t k with
    | none => rfl
    | some v =>
        exact absurd (List.mem_map.2 ⟨(k, v), (tfind_eq_some_iff hInv).1 hf, rfl⟩) hk

theorem tfind_congr_of_perm {t t' : Table Key Value} (hInv : Inv pyhash t)
    (hInv' : Inv pyhash t') (hperm : (entries t').Perm (entries t)) (k : Key) :
    tfind pyhash t' k = tfind pyhash t k := by
  cases hf : tfind pyhash t k with
  | some v =>
      exact (tfind_eq_some_iff hInv').2 (hperm.mem_iff.2 ((tfind_eq_some_iff hInv).1 hf))
  | none =>
      refine (tfind_eq_none_iff hInv').2 ?_
      intro hk
      exact (tfind_eq_none_iff hInv).1 hf ((hperm.map Prod.fst).mem_iff.1 hk)

/-! ## Lookup, membership and deletion under the invariant -/

theorem getItem_unhashable {t : Table Key Value} {k : Key}
    (hh : pyhash k = none) : getItem pyhash t k = .error .typeError := by
  simp [getItem, pyHashIdx, hh]

theorem getItem_eq {t : Table Key Value} (hInv : Inv pyhash t) {k : Key}
    {h : Int} (hh : pyhash k = some h) :
    getItem pyhash t k =
      match tfind pyhash t k with
      | some v => .ok v
      | none => .error .keyError := by
  have hts : ¬t.table_size = 0 := by
    have := hInv.ts_pos; omega
  rw [tfind_hashable hh]
  simp only [getItem, pyHashIdx, hh, if_neg hts]
  rw [dif_pos hInv.idx_lt, ← bucketAt_eq_getElem hInv.idx_lt]

theorem any_eq_isSome_bucketFind {l : List (Key × Value)} {k : Key} :
    (l.any fun p => p.1 = k) = (bucketFind k l).isSome := by
  induction l with
  | nil => simp [bucketFind]
  | cons p rest ih =>
      obtain ⟨ek, ev⟩ := p
      by_cases hek : ek = k
      · subst hek
        simp [bucketFind]
      · simp [bucketFind, hek, ih]

theorem mtContains_unhashable {t : Table Key Value} {k : Key}
    (hh : pyhash k = none) : mtContains pyhash t k = .error .typeError := by
  simp [mtContains, pyHashIdx, hh]

theorem mtContains_eq {t : Table Key Value} (hInv : Inv pyhash t) {k : Key}
    {h : Int} (hh : pyhash k = some h) :
    mtContains pyhash t k = .ok (tfind pyhash t k).isSome := by
  have hts : ¬t.table_size = 0 := by
    have := hInv.ts_pos; omega
  rw [tfind_hashable hh]
  simp only [mtContains, pyHashIdx, hh, if_neg hts]
  rw [dif_pos hInv.idx_lt, ← bucketAt_eq_getElem hInv.idx_lt,
    any_eq_isSome_bucketFind]

theorem htContains_unhashable {t : Table Key Value} {k : Key}
    (hh : pyhash k = none) : htContains pyhash t k = .error .typeError := by
  rw [htContains, getItem_unhashable hh]

theorem htContains_eq {t : Table Key Value} (hInv : Inv pyhash t) {k : Key}
    {h : Int} (hh : pyhash k = some h) :
    htContains pyhash t k = .ok (tfind pyhash t k).isSome := by
  rw [htContains, getItem_eq hInv hh]
  cases tfind pyhash t k <;> simp

theorem delItem_unhashable {t : Table Key Value} {k : Key}
    (hh : pyhash k = none) : delItem pyhash t k = (t, some .typeError) := by
  simp [delItem, pyHashIdx, hh]

theorem delItem_absent {t : Table Key Value} (hInv : Inv pyhash t) {k : Key}
    {h : Int} (hh : pyhash k = some h) (habs : tfind pyhash t k = none) :
    delItem pyhash t k = (t, some .keyError) := by
  have hts : ¬t.table_size = 0 := by
    have := hInv.ts_pos; omega
  have hkeys : k ∉ (bucketAt t (h.natAbs % t.table_size)).map Prod.fst := by
    rw [tfind_hashable hh] at habs
    exact bucketFind_eq_none.1 habs
  have hdel := bucketDel_of_not_mem hkeys
  simp only [delItem, pyHashIdx, hh, if_neg hts]
  rw [dif_pos hInv.idx_lt, ← bucketAt_eq_getElem hInv.idx_lt, hdel]
  simp

theorem key_not_in_entries {t : Table Key Value} (hInv : Inv pyhash t)
    {k : Key} {h : Int} (hh : pyhash k = some h)
    (hb : k ∉ (bucketAt t (h.natAbs % t.table_size)).map Prod.fst) :
    k ∉ (entries t).map Prod.fst := by
  intro hk
  obtain ⟨⟨k1, v1⟩, hm, hfst⟩ := List.mem_map.1 hk
  cases hfst
  exact hb (List.mem_map.2 ⟨(k1, v1), mem_bucketAt_of_mem_entries hInv hh hm, rfl⟩)

/-- One-bucket update: the new observable map. -/
theorem tfind_set_bucket {t : Table Key Value} {i : Nat}
    (hi : i < t.buckets.length) (b' : List (Key × Value)) (s' : Nat) (k : Key) :
    tfind pyhash { t with buckets := t.buckets.set i b', size := s' } k =
      (match pyhash k with
       | none => none
       | some h =>
           if h.natAbs % t.table_size = i then bucketFind k b'
           else tfind pyhash t k) := by
  cases hh : pyhash k with
  | none => simp [tfind, hh]
  | some h =>
      by_cases hik : h.natAbs % t.table_size = i
      · simp only [tfind, hh, if_pos hik]
        rw [show (({ t with buckets := t.buckets.set i b', size := s' } :
            Table Key Value)).table_size = t.table_size from rfl, hik,
          bucketAt_set hi b' s' i, if_pos rfl]
      · simp only [tfind, hh, if_neg hik]
        rw [show (({ t with buckets := t.buckets.set i b', size := s' } :
            Table Key Value)).table_size = t.table_size from rfl,
          bucketAt_set hi b' s' _, if_neg (fun hc => hik hc.symm)]

/-- One-bucket update: the invariant, given the new global facts. -/
theorem Inv_set_bucket {t : Table Key Value} (hInv : Inv pyhash t) {i : Nat}
    (hi : i < t.buckets.length) {b' : List (Key × Value)} {s' : Nat}
    (hnod : (((t.buckets.set i b').flatten).map Prod.fst).Nodup)
    (hsz : s' = ((t.buckets.set i b').flatten).length)
    (hpl : ∀ p ∈ b', ∃ h, pyhash p.1 = some h ∧ h.natAbs % t.table_size = i) :
    Inv pyhash { t with buckets := t.buckets.set i b', size := s' } := by
  refine ⟨hInv.ts_pos, ?_, hsz, hnod, ?_, hInv.lf_pos, hInv.lf_lt_one⟩
  · simpa using hInv.buckets_len
  · intro j p hp
    rw [bucketAt_set hi b' s' j] at hp
    by_cases hij : i = j
    · rw [if_pos hij] at hp
      obtain ⟨h, hh, hidx⟩ := hpl p hp
      exact ⟨h, hh, hidx.trans hij⟩
    · rw [if_neg hij] at hp
      exact hInv.placed j p hp

theorem delItem_present {t : Table Key Value} (hInv : Inv pyhash t) {k : Key}
    {h : Int} (hh : pyhash k = some h) {v : Value}
    (hp : tfind pyhash t k = some v) :
    ∃ t', delItem pyhash t k = (t', none) ∧ Inv pyhash t' ∧
      t'.table_size = t.table_size ∧ t'.load_factor = t.load_factor ∧
      t'.size + 1 = t.size ∧ tfind pyhash t' k = none ∧
      (∀ k', k' ≠ k → tfind pyhash t' k' = tfind pyhash t k') := by
  have hts : ¬t.table_size = 0 := by
    have := hInv.ts_pos; omega
  obtain ⟨i, hidef⟩ : ∃ i, i = h.natAbs % t.table_size := ⟨_, rfl⟩
  have hlt : i < t.buckets.length := by
    rw [hidef]; exact hInv.idx_lt
  have hfind : bucketFind k (bucketAt t i) = some v := by
    rw [hidef, ← tfind_hashable hh]
    exact hp
  have hkmem : k ∈ (bucketAt t i).map Prod.fst :=
    List.mem_map.2 ⟨(k, v), mem_of_bucketFind_eq_some hfind, rfl⟩
  have hfound := bucketDel_found_iff.2 hkmem
  have hblen := bucketDel_length_of_mem hkmem
  have hsplit := flatten_split_bucketAt t hlt
  have hset := flatten_set_bucketAt t hlt (bucketDel k (bucketAt t i)).1
  have hlen' : ((t.buckets.set i (bucketDel k (bucketAt t i)).1).flatten).length + 1 =
      (entries t).length := by
    rw [hset, hsplit]
    simp only [List.length_append]
    omega
  have hsub : ((t.buckets.set i (bucketDel k (bucketAt t i)).1).flatten).Sublist
      (entries t) := by
    rw [hset, hsplit]
    exact List.Sublist.append
      (List.Sublist.append (List.Sublist.refl _) bucketDel_sublist)
      (List.Sublist.refl _)
  have hpos : 0 < (entries t).length :=
    List.length_pos.2 (List.ne_nil_of_mem ((tfind_eq_some_iff hInv).1 hp))
  have hszeq := hInv.size_eq
  have hrun : delItem pyhash t k =
      ({ t with
          buckets := t.buckets.set i (bucketDel k (bucketAt t i)).1,
          size := t.size - 1 }, none) := by
    simp only [delItem, pyHashIdx, hh, if_neg hts]
    rw [← hidef, dif_pos hlt, ← bucketAt_eq_getElem hlt]
    simp only [hfound]
    simp
  have hInv' : Inv pyhash { t with
      buckets := t.buckets.set i (bucketDel k (bucketAt t i)).1,
      size := t.size - 1 } := by
    refine Inv_set_bucket hInv hlt ?_ ?_ ?_
    · exact hInv.nodup.sublist (List.Sublist.map Prod.fst hsub)
    · omega
    · intro p hp'
      exact hInv.placed _ p (bucketDel_sublist.subset hp')
  refine ⟨_, hrun, hInv', rfl, rfl, by simp only []; omega, ?_, ?_⟩
  · rw [tfind_set_bucket hlt _ _ k]
    simp only [hh]
    rw [if_pos hidef.symm]
    exact bucketFind_bucketDel_self (hInv.bucket_keys_nodup _)
  · intro k' hne
    rw [tfind_set_bucket hlt _ _ k']
    cases hh' : pyhash k' with
    | none => rw [tfind_unhashable hh']
    | some h2 =>
        simp only []
        by_cases hik : h2.natAbs % t.table_size = i
        · rw [if_pos hik, bucketFind_bucketDel_ne hne, tfind_hashable hh', hik]
        · rw [if_neg hik]

/-! ## The chain-scan insertion step -/

theorem insertScan_unhashable {t : Table Key Value} {k : Key} {v : Value}
    (hh : pyhash k = none) : insertScan pyhash t k v = (t, some .typeError) := by
  simp [insertScan, pyHashIdx, hh]

theorem insertScan_hashable {t : Table Key Value} (hInv : Inv pyhash t)
    {k : Key} {h : Int} (hh : pyhash k = some h) (v : Value) :
    ∃ t', insertScan pyhash t k v = (t', none) ∧ Inv pyhash t' ∧
      t'.table_size = t.table_size ∧ t'.load_factor = t.load_factor ∧
      tfind pyhash t' k = some v ∧
      (∀ k', k' ≠ k → tfind pyhash t' k' = tfind pyhash t k') ∧
      t'.size = (if (tfind pyhash t k).isSome then t.size else t.size + 1) := by
  have hts : ¬t.table_size = 0 := by
    have := hInv.ts_pos; omega
  obtain ⟨i, hidef⟩ : ∃ i, i = h.natAbs % t.table_size := ⟨_, rfl⟩
  have hlt : i < t.buckets.length := by
    rw [hidef]; exact hInv.idx_lt
  have hset := flatten_set_bucketAt t hlt (bucketSet k v (bucketAt t i)).1
  have hsplit := flatten_split_bucketAt t hlt
  have htf : tfind pyhash t k = bucketFind k (bucketAt t i) := by
    rw [tfind_hashable hh, hidef]
  have hszeq := hInv.size_eq
  have hrun : insertScan pyhash t k v =
      ({ t with
          buckets := t.buckets.set i (bucketSet k v (bucketAt t i)).1,
          size := if (bucketSet k v (bucketAt t i)).2 then t.size + 1
                  else t.size }, none) := by
    simp only [insertScan, pyHashIdx, hh, if_neg hts]
    rw [← hidef, dif_pos hlt, ← bucketAt_eq_getElem hlt]
  have hfself : tfind pyhash
      { t with
        buckets := t.buckets.set i (bucketSet k v (bucketAt t i)).1,
        size := if (bucketSet k v (bucketAt t i)).2 then t.size + 1
                else t.size } k = some v := by
    rw [tfind_set_bucket hlt _ _ k]
    simp only [hh]
    rw [if_pos hidef.symm]
    exact bucketFind_bucketSet_self
  have hfother : ∀ k', k' ≠ k → tfind pyhash
      { t with
        buckets := t.buckets.set i (bucketSet k v (bucketAt t i)).1,
        size := if (bucketSet k v (bucketAt t i)).2 then t.size + 1
                else t.size } k' = tfind pyhash t k' := by
    intro k' hne
    rw [tfind_set_bucket hlt _ _ k']
    cases hh' : pyhash k' with
    | none => rw [tfind_unhashable hh']
    | some h2 =>
        simp only []
        by_cases hik : h2.natAbs % t.table_size = i
        · rw [if_pos hik, bucketFind_bucketSet_ne hne, tfind_hashable hh', hik]
        · rw [if_neg hik]
  by_cases hmem : k ∈ (bucketAt t i).map Prod.fst
  · have hadded : (bucketSet k v (bucketAt t i)).2 = false := by
      rw [← Bool.not_eq_true, bucketSet_added_iff]
      simp [hmem]
    have hkeys := bucketSet_keys_of_mem (v := v) hmem
    have hlen := bucketSet_length_of_mem (v := v) hmem
    have hsome : (tfind pyhash t k).isSome = true := by
      rw [htf]
      cases hf : bucketFind k (bucketAt t i) with
      | none => exact absurd (bucketFind_eq_none.1 hf) (by simp [hmem])
      | some v0 => rfl
    have hkeq : ((t.buckets.set i (bucketSet k v (bucketAt t i)).1).flatten).map
        Prod.fst = (entries t).map Prod.fst := by
      rw [hset, hsplit]
      simp only [List.map_append]
      rw [hkeys]
    have hInv' : Inv pyhash
        { t with
          buckets := t.buckets.set i (bucketSet k v (bucketAt t i)).1,
          size := if (bucketSet k v (bucketAt t i)).2 then t.size + 1
                  else t.size } := by
      refine Inv_set_bucket hInv hlt ?_ ?_ ?_
      · rw [hkeq]
        exact hInv.nodup
      · rw [hadded]
        simp only [if_neg (Bool.false_ne_true)]
        have h1 : ((t.buckets.set i (bucketSet k v (bucketAt t i)).1).flatten).length =
            (entries t).length := by
          rw [hset, hsplit]
          simp only [List.length_append]
          omega
        omega
      · intro p hp'
        rcases mem_bucketSet hp' with hp2 | hp2
        · exact hInv.placed i p hp2
        · refine ⟨h, ?_, hidef.symm⟩
          rw [hp2]
          exact hh
    refine ⟨_, hrun, hInv', rfl, rfl, hfself, hfother, ?_⟩
    simp [hsome, hadded]
  · have hadded : (bucketSet k v (bucketAt t i)).2 = true :=
      bucketSet_added_iff.2 hmem
    have hbs := bucketSet_of_not_mem (v := v) hmem
    have htfind_none : tfind pyhash t k = none := by
      rw [htf]
      exact bucketFind_eq_none.2 hmem
    have hmem' : k ∉ (bucketAt t (h.natAbs % t.table_size)).map Prod.fst := by
      rw [← hidef]
      exact hmem
    have hknotin : k ∉ (entries t).map Prod.fst :=
      key_not_in_entries hInv hh hmem'
    have hperm : ((t.buckets.set i (bucketSet k v (bucketAt t i)).1).flatten).Perm
        (entries t ++ [(k, v)]) := by
      rw [hset, hsplit, hbs]
      exact perm_insert_middle (k, v) _ _ _
    have hInv' : Inv pyhash
        { t with
          buckets := t.buckets.set i (bucketSet k v (bucketAt t i)).1,
          size := if (bucketSet k v (bucketAt t i)).2 then t.size + 1
                  else t.size } := by
      refine Inv_set_bucket hInv hlt ?_ ?_ ?_
      · rw [(hperm.map Prod.fst).nodup_iff]
        simp only [List.map_append]
        rw [List.nodup_append]
        refine ⟨hInv.nodup, List.nodup_singleton _, ?_⟩
        intro a ha hb
        simp only [List.map_cons, List.map_nil, List.mem_singleton] at hb
        rw [hb] at ha
        exact hknotin ha
      · have h1 := hperm.length_eq
        simp only [List.length_append, List.length_singleton] at h1
        simp only [hadded, if_true]
        omega
      · intro p hp'
        rcases mem_bucketSet hp' with hp2 | hp2
        · exact hInv.placed i p hp2
        · refine ⟨h, ?_, hidef.symm⟩
          rw [hp2]
          exact hh
    refine ⟨_, hrun, hInv', rfl, rfl, hfself, hfother, ?_⟩
    simp [htfind_none, hadded]

/-! ## The `ha_6` resize -/

theorem flatten_replicate_nil {α : Type _} (n : Nat) :
    (List.replicate n ([] : List α)).flatten = [] := by
  induction n with
  | zero => simp
  | succ m ih => simp [List.replicate_succ, ih]

theorem getD_replicate_nil {α : Type _} (n i : Nat) :
    (List.replicate n ([] : List α)).getD i [] = [] := by
  by_cases hi : i < n
  · rw [List.getD_eq_getElem _ _ (by simpa using hi)]
    simp
  · rw [List.getD_eq_default _ _ (by simpa using Nat.le_of_not_lt hi)]

theorem reinsertLoop_ok {newSize : Nat} (hn : 1 ≤ newSize)
    (todo : List (Key × Value)) :
    ∀ (bs : List (List (Key × Value))) (total : Nat),
    bs.length = newSize →
    (∀ p ∈ todo, ∃ h, pyhash p.1 = some h) →
    ∃ bs', reinsertLoop pyhash newSize todo bs total =
        .ok (bs', total + todo.length) ∧
      bs'.length = newSize ∧
      bs'.flatten.Perm (bs.flatten ++ todo) ∧
      (∀ i p, p ∈ bs'.getD i [] → p ∈ bs.getD i [] ∨
        (p ∈ todo ∧ ∃ h, pyhash p.1 = some h ∧ h.natAbs % newSize = i)) := by
  induction todo with
  | nil =>
      intro bs total hlen _
      exact ⟨bs, by simp [reinsertLoop], hlen, by simp,
        fun i p hp => Or.inl hp⟩
  | cons q rest ih =>
      obtain ⟨k, v⟩ := q
      intro bs total hlen hhash
      obtain ⟨h, hh⟩ := hhash (k, v) (List.mem_cons_self _ _)
      have hn0 : ¬newSize = 0 := by omega
      have hlt : h.natAbs % newSize < bs.length := by
        rw [hlen]
        exact Nat.mod_lt _ (by omega)
      obtain ⟨bs', hrun, hlen', hperm, hplace⟩ :=
        ih (bs.set (h.natAbs % newSize) (bs.getD (h.natAbs % newSize) [] ++ [(k, v)]))
          (total + 1) (by simpa using hlen)
          (fun p hp => hhash p (List.mem_cons_of_mem _ hp))
      have hstep : reinsertLoop pyhash newSize ((k, v) :: rest) bs total =
          reinsertLoop pyhash newSize rest
            (bs.set (h.natAbs % newSize)
              (bs.getD (h.natAbs % newSize) [] ++ [(k, v)])) (total + 1) := by
        simp only [reinsertLoop, hh, if_neg hn0]
        rw [dif_pos hlt, List.getD_eq_getElem _ _ hlt]
      have hperm2 : ((bs.set (h.natAbs % newSize)
          (bs.getD (h.natAbs % newSize) [] ++ [(k, v)])).flatten).Perm
          (bs.flatten ++ [(k, v)]) := by
        rw [flatten_set bs _ hlt _, flatten_split bs _ hlt,
          ← List.getD_eq_getElem bs [] hlt]
        exact perm_insert_middle (k, v) _ _ _
      refine ⟨bs', ?_, hlen', ?_, ?_⟩
      · rw [hstep, hrun]
        have : total + 1 + rest.length = total + ((k, v) :: rest).length := by
          simp
          omega
        rw [this]
      · refine hperm.trans ?_
        refine (hperm2.append_right rest).trans ?_
        rw [List.append_assoc, List.singleton_append]
      · intro i p hp
        rcases hplace i p hp with hp2 | hp2
        · by_cases hieq : h.natAbs % newSize = i
          · rw [← hieq, getD_set_self _ _ _ _ hlt] at hp2
            rcases List.mem_append.1 hp2 with hp3 | hp3
            · exact Or.inl (by rw [← hieq]; exact hp3)
            · have hpkv : p = (k, v) := by simpa using hp3
              subst hpkv
              exact Or.inr ⟨List.mem_cons_self _ _, h, hh, hieq⟩
          · rw [getD_set_ne _ hieq _ _] at hp2
            exact Or.inl hp2
        · exact Or.inr ⟨List.mem_cons_of_mem _ hp2.1, hp2.2⟩

theorem mtResize_spec {t : Table Key Value} (hInv : Inv pyhash t)
    {newSize : Nat} (hn : 1 ≤ newSize) :
    ∃ t', mtResize pyhash t newSize = .ok t' ∧ Inv pyhash t' ∧
      t'.load_factor = t.load_factor ∧ t'.size = t.size ∧
      (∀ k, tfind pyhash t' k = tfind pyhash t k) ∧
      t'.table_size = (if resizeNeeded t then newSize else t.table_size) ∧
      (resizeNeeded t = false → t' = t) ∧
      t'.size = (entries t').length := by
  by_cases hrn : resizeNeeded t = true
  · obtain ⟨bs', hrun, hlen', hperm, hplace⟩ :=
      reinsertLoop_ok hn (entries t)
        (List.replicate newSize ([] : List (Key × Value))) 0 (by simp)
        (fun p hp => hashable_of_mem_entries hInv hp)
    rw [flatten_replicate_nil, List.nil_append] at hperm
    have hrun' : mtResize pyhash t newSize =
        .ok { t with
              table_size := newSize,
              buckets := bs',
              size := 0 + (entries t).length } := by
      rw [mtResize, if_neg (by simp [hrn]), hrun]
    have hInv' : Inv pyhash { t with
        table_size := newSize,
        buckets := bs',
        size := 0 + (entries t).length } := by
      refine ⟨hn, hlen', ?_, ?_, ?_, hInv.lf_pos, hInv.lf_lt_one⟩
      · simp only [show entries { t with
            table_size := newSize,
            buckets := bs',
            size := 0 + (entries t).length } = bs'.flatten from rfl]
        rw [hperm.length_eq]
        omega
      · exact ((hperm.map Prod.fst).nodup_iff).2 hInv.nodup
      · intro i p hp
        rcases hplace i p hp with hp2 | hp2
        · rw [getD_replicate_nil] at hp2
          cases hp2
        · exact hp2.2
    have hpermE : (entries { t with
        table_size := newSize,
        buckets := bs',
        size := 0 + (entries t).length }).Perm (entries t) := hperm
    refine ⟨_, hrun', hInv', rfl, ?_, ?_, ?_, ?_, hInv'.size_eq⟩
    · simp only []
      rw [hInv.size_eq]
      omega
    · intro k
      exact tfind_congr_of_perm hInv hInv' hpermE k
    · simp only [hrn, if_true]
    · intro hc
      rw [hrn] at hc
      cases hc
  · have hrn' : resizeNeeded t = false := by
      simpa using hrn
    have hrun : mtResize pyhash t newSize = .ok t := by
      simp [mtResize, hrn']
    refine ⟨t, hrun, hInv, rfl, rfl, fun k => rfl, ?_, fun _ => rfl, hInv.size_eq⟩
    simp [hrn']

/-! ## `ha_6.__setitem__` -/

theorem mtSetItem_hashable {t : Table Key Value} (hInv : Inv pyhash t)
    {k : Key} {h : Int} (hh : pyhash k = some h) (v : Value) :
    ∃ t', mtSetItem pyhash t k v = (t', none) ∧ Inv pyhash t' ∧
      t'.load_factor = t.load_factor ∧
      t'.table_size =
        (if resizeNeeded t then t.table_size * 2 else t.table_size) ∧
      tfind pyhash t' k = some v ∧
      (∀ k', k' ≠ k → tfind pyhash t' k' = tfind pyhash t k') ∧
      t'.size = (if (tfind pyhash t k).isSome then t.size else t.size + 1) := by
  by_cases hrn : resizeNeeded t = true
  · have h2 : 1 ≤ t.table_size * 2 := by
      have := hInv.ts_pos; omega
    obtain ⟨t1, hrun1, hInv1, hlf1, hsz1, htf1, hts1, _, _⟩ := mtResize_spec hInv h2
    obtain ⟨t', hrun2, hInv', hts', hlf', hfself, hfother, hsize⟩ :=
      insertScan_hashable hInv1 hh v
    refine ⟨t', ?_, hInv', hlf'.trans hlf1, ?_, hfself, ?_, ?_⟩
    · rw [mtSetItem, if_pos hrn, hrun1]
      exact hrun2
    · rw [hts', hts1, hrn]
    · intro k' hne
      rw [hfother k' hne, htf1 k']
    · rw [hsize, htf1 k, hsz1]
  · obtain ⟨t', hrun, hInv', hts', hlf', hfself, hfother, hsize⟩ :=
      insertScan_hashable hInv hh v
    refine ⟨t', ?_, hInv', hlf', ?_, hfself, hfother, hsize⟩
    · rw [mtSetItem, if_neg hrn]
      exact hrun
    · rw [hts', if_neg hrn]

theorem mtSetItem_unhashable {t : Table Key Value} (hInv : Inv pyhash t)
    {k : Key} (hh : pyhash k = none) (v : Value) :
    ∃ t', mtSetItem pyhash t k v = (t', some .typeError) ∧ Inv pyhash t' ∧
      t'.load_factor = t.load_factor ∧
      t'.table_size =
        (if resizeNeeded t then t.table_size * 2 else t.table_size) ∧
      (∀ k', tfind pyhash t' k' = tfind pyhash t k') ∧
      t'.size = t.size := by
  by_cases hrn : resizeNeeded t = true
  · have h2 : 1 ≤ t.table_size * 2 := by
      have := hInv.ts_pos; omega
    obtain ⟨t1, hrun1, hInv1, hlf1, hsz1, htf1, hts1, _, _⟩ := mtResize_spec hInv h2
    refine ⟨t1, ?_, hInv1, hlf1, ?_, htf1, hsz1⟩
    · rw [mtSetItem, if_pos hrn, hrun1]
      exact insertScan_unhashable hh
    · rw [hts1, hrn]
  · refine ⟨t, ?_, hInv, rfl, ?_, fun k' => rfl, rfl⟩
    · rw [mtSetItem, if_neg hrn]
      exact insertScan_unhashable hh
    · rw [if_neg hrn]

/-! ## The constructor -/

theorem bucketAt_def (t : Table Key Value) (i : Nat) :
    bucketAt t i = t.buckets.getD i [] := rfl

theorem mkTable_ok {initial_size : Int} {load_factor : ℚ}
    (h1 : 1 ≤ initial_size) (h2 : 0 < load_factor) (h3 : load_factor < 1) :
    (mkTable initial_size load_factor : Except Err (Table Key Value)) =
      .ok { size := 0
            table_size := initial_size.toNat
            load_factor := load_factor
            buckets := List.replicate initial_size.toNat [] } := by
  rw [mkTable, if_neg (by omega), if_neg (not_not_intro ⟨h2, h3⟩)]

theorem Inv_mkTable {initial_size : Int} {load_factor : ℚ}
    {t : Table Key Value}
    (hmk : mkTable initial_size load_factor = .ok t) : Inv pyhash t := by
  rw [mkTable] at hmk
  by_cases hc1 : initial_size < 1
  · rw [if_pos hc1] at hmk
    cases hmk
  · rw [if_neg hc1] at hmk
    by_cases hc2 : 0 < load_factor ∧ load_factor < 1
    · rw [if_neg (not_not_intro hc2)] at hmk
      cases hmk
      refine ⟨?_, by simp, by simp [entries, flatten_replicate_nil],
        by simp [entries, flatten_replicate_nil], ?_, hc2.1, hc2.2⟩
      · simp only []
        omega
      · intro i p hp
        simp [bucketAt_def, getD_replicate_nil] at hp
    · rw [if_pos hc2] at hmk
      cases hmk

/-! ## Single-threaded runs of the `ha_6` table -/

theorem mtStep_fst_set {t : Table Key Value} {k : Key} {v : Value} :
    (mtStep pyhash t (.set k v)).1 = (mtSetItem pyhash t k v).1 := rfl

theorem mtStep_fst_del {t : Table Key Value} {k : Key} :
    (mtStep pyhash t (.del k)).1 = (delItem pyhash t k).1 := rfl

theorem mtStep_inv {t : Table Key Value} (hInv : Inv pyhash t)
    (op : Op Key Value) : Inv pyhash (mtStep pyhash t op).1 := by
  cases op with
  | set k v =>
      rw [mtStep_fst_set]
      cases hh : pyhash k with
      | none =>
          obtain ⟨t', hrun, hInv', _⟩ := mtSetItem_unhashable hInv hh v
          rw [hrun]
          exact hInv'
      | some h =>
          obtain ⟨t', hrun, hInv', _⟩ := mtSetItem_hashable hInv hh v
          rw [hrun]
          exact hInv'
  | get k => exact hInv
  | del k =>
      rw [mtStep_fst_del]
      cases hh : pyhash k with
      | none =>
          rw [delItem_unhashable hh]
          exact hInv
      | some h =>
          cases hf : tfind pyhash t k with
          | none =>
              rw [delItem_absent hInv hh hf]
              exact hInv
          | some v =>
              obtain ⟨t', hrun, hInv', _⟩ := delItem_present hInv hh hf
              rw [hrun]
              exact hInv'
  | contains k => exact hInv
  | len => exact hInv

theorem mtRunTable_inv {t : Table Key Value} (hInv : Inv pyhash t)
    (ops : List (Op Key Value)) : Inv pyhash (mtRunTable pyhash t ops) := by
  induction ops generalizing t with
  | nil => exact hInv
  | cons op rest ih => exact ih (mtStep_inv hInv op)

/-! ## The `ha_5` resize (recursive re-insertion) -/

theorem bucketFind_entries {t : Table Key Value} (hInv : Inv pyhash t)
    (k : Key) : bucketFind k (entries t) = tfind pyhash t k := by
  cases hf : tfind pyhash t k with
  | some v =>
      exact bucketFind_eq_some_of_mem hInv.nodup ((tfind_eq_some_iff hInv).1 hf)
  | none => exact bucketFind_eq_none.2 ((tfind_eq_none_iff hInv).1 hf)

theorem Inv_reset {t : Table Key Value} (hInv : Inv pyhash t) {n : Nat}
    (hn : 1 ≤ n) :
    Inv pyhash ({ t with
      table_size := n,
      buckets := List.replicate n [],
      size := 0 } : Table Key Value) := by
  refine ⟨hn, by simp, by simp [entries, flatten_replicate_nil],
    by simp [entries, flatten_replicate_nil], ?_, hInv.lf_pos, hInv.lf_lt_one⟩
  intro i p hp
  simp [bucketAt_def, getD_replicate_nil] at hp

theorem tfind_reset {t : Table Key Value} {n : Nat} (k : Key) :
    tfind pyhash ({ t with
      table_size := n,
      buckets := List.replicate n [],
      size := 0 } : Table Key Value) k = none := by
  cases hh : pyhash k with
  | none => rw [tfind_unhashable hh]
  | some h =>
      rw [tfind_hashable hh]
      simp [bucketAt_def, getD_replicate_nil, bucketFind]

/-- The behaviour of one `ha_5.HashTable.__setitem__`-style step: either the
fuel is exhausted, or the call has exactly the observable effect of the
`ha_6` insert on the stored map, the length and the errors.  No capacity
clause appears here: the capacity evolution of `ha_5` can differ from
`ha_6` (cascading resizes). -/
def StepSpec {Value : Type} (pyhash : Key → Option Int)
    (step : Table Key Value → Key → Value → Table Key Value × Option Err) :
    Prop :=
  ∀ {t : Table Key Value}, Inv pyhash t → ∀ k v t' e,
    step t k v = (t', e) →
    e = some .fuelBudget ∨
    (Inv pyhash t' ∧ t'.load_factor = t.load_factor ∧
     (∀ h, pyhash k = some h →
        e = none ∧ tfind pyhash t' k = some v ∧
        (∀ k', k' ≠ k → tfind pyhash t' k' = tfind pyhash t k') ∧
        t'.size = (if (tfind pyhash t k).isSome then t.size else t.size + 1)) ∧
     (pyhash k = none →
        e = some .typeError ∧
        (∀ k', tfind pyhash t' k' = tfind pyhash t k') ∧
        t'.size = t.size))

theorem htReinsertList_spec {Value : Type}
    {step : Table Key Value → Key → Value → Table Key Value × Option Err}
    (hset : StepSpec pyhash step) (todo : List (Key × Value)) :
    ∀ {t : Table Key Value}, Inv pyhash t →
    (∀ p ∈ todo, ∃ h, pyhash p.1 = some h) →
    ((todo.map Prod.fst).Nodup) →
    (∀ p ∈ todo, tfind pyhash t p.1 = none) →
    ∀ t' e, htReinsertList step todo t = (t', e) →
    e = some .fuelBudget ∨
    (e = none ∧ Inv pyhash t' ∧ t'.load_factor = t.load_factor ∧
     t'.size = t.size + todo.length ∧
     (∀ k, tfind pyhash t' k =
       (match bucketFind k todo with
        | some v => some v
        | none => tfind pyhash t k))) := by
  induction todo with
  | nil =>
      intro t hInv _ _ _ t' e hrun
      simp only [htReinsertList] at hrun
      cases hrun
      refine Or.inr ⟨rfl, hInv, rfl, by simp, ?_⟩
      intro k
      simp [bucketFind]
  | cons q rest ih =>
      obtain ⟨k, v⟩ := q
      intro t hInv hhash hnodup hfresh t' e hrun
      obtain ⟨h, hh⟩ := hhash (k, v) (List.mem_cons_self _ _)
      have hknotin : k ∉ rest.map Prod.fst := by
        have := hnodup
        simp only [List.map_cons, List.nodup_cons] at this
        exact this.1
      have hrestnodup : (rest.map Prod.fst).Nodup := by
        have := hnodup
        simp only [List.map_cons, List.nodup_cons] at this
        exact this.2
      simp only [htReinsertList] at hrun
      cases hset1 : step t k v with
      | mk t1 e1 =>
          rw [hset1] at hrun
          rcases hset hInv k v t1 e1 hset1 with hfuel | ⟨hInv1, hlf1, hsome, _⟩
          · subst hfuel
            cases hrun
            exact Or.inl rfl
          · obtain ⟨he1, htf1k, htf1o, hsz1⟩ := hsome h hh
            subst he1
            have hfreshk : tfind pyhash t k = none :=
              hfresh (k, v) (List.mem_cons_self _ _)
            have hsz1' : t1.size = t.size + 1 := by
              rw [hsz1, hfreshk]
              rfl
            have hfresh1 : ∀ p ∈ rest, tfind pyhash t1 p.1 = none := by
              intro p hp
              have hpne : p.1 ≠ k := by
                intro hc
                exact hknotin (hc ▸ List.mem_map.2 ⟨p, hp, rfl⟩)
              rw [htf1o p.1 hpne]
              exact hfresh p (List.mem_cons_of_mem _ hp)
            rcases ih hInv1 (fun p hp => hhash p (List.mem_cons_of_mem _ hp))
                hrestnodup hfresh1 t' e hrun with
              hfuel | ⟨he, hInv2, hlf2, hsz2, htf2⟩
            · exact Or.inl hfuel
            · refine Or.inr ⟨he, hInv2, hlf2.trans hlf1, ?_, ?_⟩
              · rw [hsz2, hsz1']
                simp only [List.length_cons]
                omega
              · intro k0
                rw [htf2 k0]
                by_cases hk0 : k = k0
                · subst hk0
                  rw [bucketFind_eq_none.2 hknotin, htf1k]
                  simp [bucketFind]
                · simp only [bucketFind, if_neg hk0]
                  cases hfr : bucketFind k0 rest with
                  | some v0 => rfl
                  | none => exact htf1o k0 (fun hc => hk0 hc.symm)

theorem htSetItem_spec {Value : Type} (fuel : Nat) :
    StepSpec pyhash
      (htSetItem pyhash fuel :
        Table Key Value → Key → Value → Table Key Value × Option Err) := by
  induction fuel with
  | zero =>
      intro t hInv k v t' e hrun
      simp only [htSetItem] at hrun
      cases hrun
      exact Or.inl rfl
  | succ fuel ih =>
      intro t hInv k v t' e hrun
      simp only [htSetItem] at hrun
      by_cases hrn : resizeNeeded t = true
      · rw [if_pos hrn] at hrun
        cases hres : htReinsertList
            (fun t1 k1 v1 => htSetItem pyhash fuel t1 k1 v1) (entries t)
            ({ t with
               table_size := t.table_size * 2,
               buckets := List.replicate (t.table_size * 2) [],
               size := 0 } : Table Key Value) with
        | mk t1 e1 =>
            rw [hres] at hrun
            have h2 : 1 ≤ t.table_size * 2 := by
              have := hInv.ts_pos; omega
            rcases htReinsertList_spec ih (entries t) (Inv_reset hInv h2)
                (fun p hp => hashable_of_mem_entries hInv hp) hInv.nodup
                (fun p hp => tfind_reset p.1) t1 e1 hres with
              hfuel | ⟨he1, hInv1, hlf1, hsz1, htf1⟩
            · subst hfuel
              cases hrun
              exact Or.inl rfl
            · subst he1
              have hlf1' : t1.load_factor = t.load_factor := hlf1
              have hsz1'' : t1.size = 0 + (entries t).length := hsz1
              have hsz1' : t1.size = t.size := by
                rw [hsz1'', hInv.size_eq]
                omega
              have htf1' : ∀ k0, tfind pyhash t1 k0 = tfind pyhash t k0 := by
                intro k0
                rw [htf1 k0, bucketFind_entries hInv k0]
                cases tfind pyhash t k0 with
                | some v0 => rfl
                | none => exact tfind_reset k0
              cases hhk : pyhash k with
              | some h =>
                  obtain ⟨t2, hrun2, hInv2, hts2, hlf2, hfself, hfother, hsize⟩ :=
                    insertScan_hashable hInv1 hhk v
                  change insertScan pyhash t1 k v = (t', e) at hrun
                  rw [hrun2] at hrun
                  cases hrun
                  refine Or.inr ⟨hInv2, by rw [hlf2, hlf1'], ?_, ?_⟩
                  · intro h0 _
                    refine ⟨rfl, hfself, ?_, ?_⟩
                    · intro k' hne
                      rw [hfother k' hne, htf1' k']
                    · rw [hsize, htf1' k, hsz1']
                  · intro hc
                    exact Option.noConfusion hc
              | none =>
                  change insertScan pyhash t1 k v = (t', e) at hrun
                  rw [insertScan_unhashable hhk] at hrun
                  cases hrun
                  refine Or.inr ⟨hInv1, hlf1', ?_, ?_⟩
                  · intro h0 hh0
                    exact Option.noConfusion hh0
                  · intro _
                    exact ⟨rfl, htf1', hsz1'⟩
      · rw [if_neg hrn] at hrun
        cases hhk : pyhash k with
        | some h =>
            obtain ⟨t2, hrun2, hInv2, hts2, hlf2, hfself, hfother, hsize⟩ :=
              insertScan_hashable hInv hhk v
            change insertScan pyhash t k v = (t', e) at hrun
            rw [hrun2] at hrun
            cases hrun
            refine Or.inr ⟨hInv2, hlf2, ?_, ?_⟩
            · intro h0 _
              exact ⟨rfl, hfself, hfother, hsize⟩
            · intro hc
              exact Option.noConfusion hc
        | none =>
            change insertScan pyhash t k v = (t', e) at hrun
            rw [insertScan_unhashable hhk] at hrun
            cases hrun
            refine Or.inr ⟨hInv, rfl, ?_, ?_⟩
            · intro h0 hh0
              exact Option.noConfusion hh0
            · intro _
              exact ⟨rfl, fun k' => rfl, rfl⟩

/-! ## Observable equivalence of the two tables (single-threaded) -/

theorem htStep_set {Value : Type} (fuel : Nat) (th : Table Key Value)
    (k : Key) (v : Value) :
    htStep pyhash fuel th (.set k v) =
      ((htSetItem pyhash fuel th k v).1,
        match (htSetItem pyhash fuel th k v).2 with
        | none => Out.unit
        | some e => Out.err e) := rfl

theorem mtStep_set (t : Table Key Value) (k : Key) (v : Value) :
    mtStep pyhash t (.set k v) =
      ((mtSetItem pyhash t k v).1,
        match (mtSetItem pyhash t k v).2 with
        | none => Out.unit
        | some e => Out.err e) := rfl

theorem htStep_del {Value : Type} (fuel : Nat) (th : Table Key Value) (k : Key) :
    htStep pyhash fuel th (.del k) =
      ((delItem pyhash th k).1,
        match (delItem pyhash th k).2 with
        | none => Out.unit
        | some e => Out.err e) := rfl

theorem mtStep_del (t : Table Key Value) (k : Key) :
    mtStep pyhash t (.del k) =
      ((delItem pyhash t k).1,
        match (delItem pyhash t k).2 with
        | none => Out.unit
        | some e => Out.err e) := rfl

theorem htStep_matches {Value : Type} {tm th : Table Key Value}
    (hm : Inv pyhash tm) (hht : Inv pyhash th)
    (hsz : th.size = tm.size)
    (htf : ∀ k, tfind pyhash th k = tfind pyhash tm k)
    (fuel : Nat) (op : Op Key Value) :
    (htStep pyhash fuel th op).2 = .err .fuelBudget ∨
    ((htStep pyhash fuel th op).2 = (mtStep pyhash tm op).2 ∧
     Inv pyhash (mtStep pyhash tm op).1 ∧
     Inv pyhash (htStep pyhash fuel th op).1 ∧
     (htStep pyhash fuel th op).1.size = (mtStep pyhash tm op).1.size ∧
     (∀ k, tfind pyhash (htStep pyhash fuel th op).1 k =
       tfind pyhash (mtStep pyhash tm op).1 k)) := by
  cases op with
  | set k v =>
      cases hsp : htSetItem pyhash fuel th k v with
      | mk th' e1 =>
          rcases htSetItem_spec fuel hht k v th' e1 hsp with
            hfuel | ⟨hInv', hlf', hsome, hnone⟩
          · subst hfuel
            have hstep1 : htStep pyhash fuel th (.set k v) =
                (th', Out.err .fuelBudget) := by
              rw [htStep_set, hsp]
            rw [hstep1]
            exact Or.inl rfl
          · cases hhk : pyhash k with
            | some h =>
                obtain ⟨he1, htk, hto, hsz'⟩ := hsome h hhk
                subst he1
                have hstep1 : htStep pyhash fuel th (.set k v) =
                    (th', Out.unit) := by
                  rw [htStep_set, hsp]
                obtain ⟨tm', hrunm, hInvm', hlfm, htsm, hms, hmo, hmsz⟩ :=
                  mtSetItem_hashable hm hhk v
                have hstep2 : mtStep pyhash tm (.set k v) = (tm', Out.unit) := by
                  rw [mtStep_set, hrunm]
                rw [hstep1, hstep2]
                refine Or.inr ⟨rfl, hInvm', hInv', ?_, ?_⟩
                · show th'.size = tm'.size
                  rw [hsz', hmsz, htf k, hsz]
                · show ∀ k0, tfind pyhash th' k0 = tfind pyhash tm' k0
                  intro k0
                  by_cases hk0 : k0 = k
                  · rw [hk0, htk, hms]
                  · rw [hto k0 hk0, hmo k0 hk0, htf k0]
            | none =>
                obtain ⟨he1, hto, hsz'⟩ := hnone hhk
                subst he1
                have hstep1 : htStep pyhash fuel th (.set k v) =
                    (th', Out.err .typeError) := by
                  rw [htStep_set, hsp]
                obtain ⟨tm', hrunm, hInvm', hlfm, htsm, hmo, hmsz⟩ :=
                  mtSetItem_unhashable hm hhk v
                have hstep2 : mtStep pyhash tm (.set k v) =
                    (tm', Out.err .typeError) := by
                  rw [mtStep_set, hrunm]
                rw [hstep1, hstep2]
                refine Or.inr ⟨rfl, hInvm', hInv', ?_, ?_⟩
                · show th'.size = tm'.size
                  rw [hsz', hmsz, hsz]
                · show ∀ k0, tfind pyhash th' k0 = tfind pyhash tm' k0
                  intro k0
                  rw [hto k0, hmo k0, htf k0]
  | get k =>
      refine Or.inr ⟨?_, hm, hht, hsz, htf⟩
      cases hhk : pyhash k with
      | none =>
          simp [htStep, mtStep, getItem_unhashable hhk]
      | some h =>
          simp [htStep, mtStep, getItem_eq hht hhk, getItem_eq hm hhk, htf k]
  | del k =>
      cases hhk : pyhash k with
      | none =>
          have hstep1 : htStep pyhash fuel th (.del k) =
              (th, Out.err .typeError) := by
            rw [htStep_del, delItem_unhashable hhk]
          have hstep2 : mtStep pyhash tm (.del k) =
              (tm, Out.err .typeError) := by
            rw [mtStep_del, delItem_unhashable hhk]
          rw [hstep1, hstep2]
          exact Or.inr ⟨rfl, hm, hht, hsz, htf⟩
      | some h =>
          cases hfm : tfind pyhash tm k with
          | none =>
              have hfh : tfind pyhash th k = none := by
                rw [htf k, hfm]
              have hstep1 : htStep pyhash fuel th (.del k) =
                  (th, Out.err .keyError) := by
                rw [htStep_del, delItem_absent hht hhk hfh]
              have hstep2 : mtStep pyhash tm (.del k) =
                  (tm, Out.err .keyError) := by
                rw [mtStep_del, delItem_absent hm hhk hfm]
              rw [hstep1, hstep2]
              exact Or.inr ⟨rfl, hm, hht, hsz, htf⟩
          | some v =>
              have hfh : tfind pyhash th k = some v := by
                rw [htf k, hfm]
              obtain ⟨th', h1, hInv1, hts1, hlf1, hszp1, hfk1, hfo1⟩ :=
                delItem_present hht hhk hfh
              obtain ⟨tm', h2, hInv2, hts2, hlf2, hszp2, hfk2, hfo2⟩ :=
                delItem_present hm hhk hfm
              have hstep1 : htStep pyhash fuel th (.del k) = (th', Out.unit) := by
                rw [htStep_del, h1]
              have hstep2 : mtStep pyhash tm (.del k) = (tm', Out.unit) := by
                rw [mtStep_del, h2]
              rw [hstep1, hstep2]
              refine Or.inr ⟨rfl, hInv2, hInv1, ?_, ?_⟩
              · show th'.size = tm'.size
                omega
              · show ∀ k0, tfind pyhash th' k0 = tfind pyhash tm' k0
                intro k0
                by_cases hk0 : k0 = k
                · rw [hk0, hfk1, hfk2]
                · rw [hfo1 k0 hk0, hfo2 k0 hk0, htf k0]
  | contains k =>
      refine Or.inr ⟨?_, hm, hht, hsz, htf⟩
      cases hhk : pyhash k with
      | none =>
          have h1 : htContains pyhash th k = .error .typeError :=
            htContains_unhashable hhk
          have h2 : mtContains pyhash tm k = .error .typeError :=
            mtContains_unhashable hhk
          simp [htStep, mtStep, h1, h2]
      | some h =>
          have h1 := htContains_eq hht hhk
          have h2 := mtContains_eq hm hhk
          simp [htStep, mtStep, h1, h2, htf k]
  | len =>
      refine Or.inr ⟨?_, hm, hht, hsz, htf⟩
      simp [htStep, mtStep, lenTable, hsz]


theorem htRun_matches {Value : Type} {tm th : Table Key Value}
    (hm : Inv pyhash tm) (hht : Inv pyhash th)
    (hsz : th.size = tm.size)
    (htf : ∀ k, tfind pyhash th k = tfind pyhash tm k)
    (fuel : Nat) (ops : List (Op Key Value))
    (hnf : Out.err Err.fuelBudget ∉ (htRun pyhash fuel th ops).map Prod.fst) :
    (htRun pyhash fuel th ops).map Prod.fst =
      (mtRun pyhash tm ops).map Prod.fst := by
  induction ops generalizing tm th with
  | nil => rfl
  | cons op rest ih =>
      have hrunh : htRun pyhash fuel th (op :: rest) =
          ((htStep pyhash fuel th op).2, (htStep pyhash fuel th op).1.table_size) ::
            htRun pyhash fuel (htStep pyhash fuel th op).1 rest := rfl
      have hrunm : mtRun pyhash tm (op :: rest) =
          ((mtStep pyhash tm op).2, (mtStep pyhash tm op).1.table_size) ::
            mtRun pyhash (mtStep pyhash tm op).1 rest := rfl
      rcases htStep_matches hm hht hsz htf fuel op with
        hfuel | ⟨hout, hInvm, hInvh, hsz', htf'⟩
      · exfalso
        apply hnf
        rw [hrunh, List.map_cons, hfuel]
        exact List.mem_cons_self _ _
      · have hnf' : Out.err Err.fuelBudget ∉
            (htRun pyhash fuel (htStep pyhash fuel th op).1 rest).map Prod.fst := by
          intro hc
          apply hnf
          rw [hrunh, List.map_cons]
          exact List.mem_cons_of_mem _ hc
        rw [hrunh, hrunm, List.map_cons, List.map_cons, hout]
        exact congrArg (List.cons (mtStep pyhash tm op).2)
          (ih hInvm hInvh hsz' htf' hnf')

/-! ## Concrete instances used by the witnesses and counterexamples

`exHash` is a concrete model of Python's `hash` on a mixed universe of
objects indexed by integers: an object `n` with `0 ≤ n` is hashable with
hash value `n` (as CPython small non-negative ints are), an object with
`n < 0` stands for an unhashable object (`hash` raises `TypeError`). -/

def exHash : Int → Option Int := fun n => if 0 ≤ n then some n else none

/-- The table `MultiThreadingHashTable(initial_size=1, load_factor=0.5)`. -/
def exTable0 : Table Int Nat :=
  { size := 0, table_size := 1, load_factor := mkRat 1 2, buckets := [[]] }

/-- `exTable0` after `t[0] = 5`: one entry, load 1/1 above the 0.5
threshold, so the next insert triggers a resize. -/
def exTable1 : Table Int Nat :=
  { size := 1, table_size := 1, load_factor := mkRat 1 2,
    buckets := [[(0, 5)]] }

/-- `MultiThreadingHashTable(initial_size=2, load_factor=0.25)` after
`t[0] = 5`: load 1/2 above the 0.25 threshold. -/
def exTable2 : Table Int Nat :=
  { size := 1, table_size := 2, load_factor := mkRat 1 4,
    buckets := [[(0, 5)], []] }

theorem exTable0_mk : mkTable 1 (mkRat 1 2) = .ok exTable0 := rfl

theorem exTable0_inv : Inv exHash exTable0 := Inv_mkTable exTable0_mk

theorem exTable1_eq : (mtStep exHash exTable0 (.set 0 5)).1 = exTable1 := by
  rfl

theorem exTable1_inv : Inv exHash exTable1 :=
  exTable1_eq ▸ mtStep_inv exTable0_inv (.set 0 5)

/-- `MultiThreadingHashTable(initial_size=2, load_factor=0.25)`, fresh. -/
def exTable2base : Table Int Nat :=
  { size := 0, table_size := 2, load_factor := mkRat 1 4,
    buckets := [[], []] }

theorem exTable2_mk : mkTable 2 (mkRat 1 4) = .ok exTable2base := rfl

theorem exTable2_eq :
    (mtStep exHash exTable2base (.set 0 5)).1 = exTable2 := by rfl

theorem exTable2_inv : Inv exHash exTable2 :=
  exTable2_eq ▸ mtStep_inv (Inv_mkTable exTable2_mk) (.set 0 5)

theorem buckets_mkTable {initial_size : Int} {load_factor : ℚ}
    {t : Table Key Value}
    (hmk : mkTable initial_size load_factor = .ok t) :
    t.buckets = List.replicate initial_size.toNat [] := by
  rw [mkTable] at hmk
  by_cases hc1 : initial_size < 1
  · rw [if_pos hc1] at hmk
    cases hmk
  · rw [if_neg hc1] at hmk
    by_cases hc2 : 0 < load_factor ∧ load_factor < 1
    · rw [if_neg (not_not_intro hc2)] at hmk
      cases hmk
      rfl
    · rw [if_pos hc2] at hmk
      cases hmk

theorem tfind_mkTable {initial_size : Int} {load_factor : ℚ}
    {t : Table Key Value}
    (hmk : mkTable initial_size load_factor = .ok t) (k : Key) :
    tfind pyhash t k = none := by
  cases hh : pyhash k with
  | none => exact tfind_unhashable hh
  | some h =>
      rw [tfind_hashable hh, bucketAt_def, buckets_mkTable hmk,
        getD_replicate_nil]
      rfl

/-! ## The claims -/

/-- The fresh table of the C1 scenario: `(initial_size=8,
load_factor=0.75)`. -/
def c1T0 : Table String Nat :=
  { size := 0, table_size := 8, load_factor := mkRat 3 4,
    buckets := List.replicate 8 [] }

/-- A concrete string hash for the C1 counterexample and witness (every
Python string is hashable; the scenario's counts are independent of the
hash values, so a constant hash exhibits them). -/
def c1Hash : String → Option Int := fun _ => some 0

/-- The first seven inserts of the C1 scenario. -/
def c1Ops7 : List (Op String Nat) :=
  [.set "a" 0, .set "b" 1, .set "c" 2, .set "d" 3, .set "e" 4,
   .set "f" 5, .set "g" 6]

/-- C1 (amended): for every hash function on strings (in Python every
string is hashable), inserting the 8 distinct keys "a".."h" sequentially
with values 0..7 into a fresh table built with `initial_size=8`,
`load_factor=0.75` causes no resize before the **8th** insert (the
capacity is still 8 after the 7th insert, since the check `6/8 > 0.75`
fails before the 7th); the 8th insert, seeing `7/8 > 0.75`, triggers the
resize to capacity 16; after all 8 inserts `len` equals 8, every inserted
key is retrievable with its value, and `get("z")` fails with `KeyError`.
The original claim placed the resize one insert too early: the trigger is
strict (`_size / _table_size > _load_factor`), so the 7th insert, checked
at load `6/8 = 0.75`, does not resize — see the counterexample. -/
theorem C1_insert_scenario_amended (pyhash : String → Option Int)
    (hh : ∀ s : String, ∃ x, pyhash s = some x)
    {t0 : Table String Nat} (hmk : mkTable 8 (mkRat 3 4) = .ok t0) :
    ∃ t1 t2 t3 t4 t5 t6 t7 t8 : Table String Nat,
      mtSetItem pyhash t0 "a" 0 = (t1, none) ∧ t1.table_size = 8 ∧
      mtSetItem pyhash t1 "b" 1 = (t2, none) ∧ t2.table_size = 8 ∧
      mtSetItem pyhash t2 "c" 2 = (t3, none) ∧ t3.table_size = 8 ∧
      mtSetItem pyhash t3 "d" 3 = (t4, none) ∧ t4.table_size = 8 ∧
      mtSetItem pyhash t4 "e" 4 = (t5, none) ∧ t5.table_size = 8 ∧
      mtSetItem pyhash t5 "f" 5 = (t6, none) ∧ t6.table_size = 8 ∧
      mtSetItem pyhash t6 "g" 6 = (t7, none) ∧ t7.table_size = 8 ∧
      mtSetItem pyhash t7 "h" 7 = (t8, none) ∧ t8.table_size = 16 ∧
      lenTable t8 = 8 ∧
      getItem pyhash t8 "a" = .ok 0 ∧ getItem pyhash t8 "b" = .ok 1 ∧
      getItem pyhash t8 "c" = .ok 2 ∧ getItem pyhash t8 "d" = .ok 3 ∧
      getItem pyhash t8 "e" = .ok 4 ∧ getItem pyhash t8 "f" = .ok 5 ∧
      getItem pyhash t8 "g" = .ok 6 ∧ getItem pyhash t8 "h" = .ok 7 ∧
      getItem pyhash t8 "z" = .error .keyError := by
  obtain ⟨xa, hha⟩ := hh "a"
  obtain ⟨xb, hhb⟩ := hh "b"
  obtain ⟨xc, hhc⟩ := hh "c"
  obtain ⟨xd, hhd⟩ := hh "d"
  obtain ⟨xe, hhe⟩ := hh "e"
  obtain ⟨xf, hhf⟩ := hh "f"
  obtain ⟨xg, hhg⟩ := hh "g"
  obtain ⟨xi, hhi⟩ := hh "h"
  obtain ⟨xz, hhz⟩ := hh "z"
  have h8 : (mkTable 8 (mkRat 3 4) : Except Err (Table String Nat)) =
      .ok c1T0 := rfl
  rw [hmk] at h8
  injection h8 with h0
  subst h0
  have hI0 : Inv pyhash c1T0 := Inv_mkTable hmk
  have hz0 : ∀ s, tfind pyhash c1T0 s = none := fun s => tfind_mkTable hmk s
  -- insert "a" ↦ 0 (load 0/8: no resize)
  obtain ⟨t1, hr1, hI1, hl1, hts1, hA1, ho1, hs1⟩ := mtSetItem_hashable hI0 hha 0
  have hl1' : t1.load_factor = mkRat 3 4 := hl1
  have hts1' : t1.table_size = 8 := by
    rw [hts1, if_neg (by decide : ¬resizeNeeded c1T0 = true)]
    rfl
  have hsz1' : t1.size = 1 := by
    rw [hs1, hz0 "a"]
    rfl
  have hB1 : tfind pyhash t1 "b" = none := (ho1 "b" (by decide)).trans (hz0 "b")
  have hC1 : tfind pyhash t1 "c" = none := (ho1 "c" (by decide)).trans (hz0 "c")
  have hD1 : tfind pyhash t1 "d" = none := (ho1 "d" (by decide)).trans (hz0 "d")
  have hE1 : tfind pyhash t1 "e" = none := (ho1 "e" (by decide)).trans (hz0 "e")
  have hF1 : tfind pyhash t1 "f" = none := (ho1 "f" (by decide)).trans (hz0 "f")
  have hG1 : tfind pyhash t1 "g" = none := (ho1 "g" (by decide)).trans (hz0 "g")
  have hH1 : tfind pyhash t1 "h" = none := (ho1 "h" (by decide)).trans (hz0 "h")
  have hZ1 : tfind pyhash t1 "z" = none := (ho1 "z" (by decide)).trans (hz0 "z")
  -- insert "b" ↦ 1 (load 1/8: no resize)
  have hrn1 : resizeNeeded t1 = false := by
    show decide (t1.load_factor < mkRat t1.size t1.table_size) = false
    rw [hl1', hsz1', hts1']
    decide
  obtain ⟨t2, hr2, hI2, hl2, hts2, hB2, ho2, hs2⟩ := mtSetItem_hashable hI1 hhb 1
  have hl2' : t2.load_factor = mkRat 3 4 := hl2.trans hl1'
  have hts2' : t2.table_size = 8 := by
    rw [hts2, hrn1, if_neg (by decide), hts1']
  have hsz2' : t2.size = 2 := by
    rw [hs2, hB1, hsz1']
    rfl
  have hA2 : tfind pyhash t2 "a" = some 0 := (ho2 "a" (by decide)).trans hA1
  have hC2 : tfind pyhash t2 "c" = none := (ho2 "c" (by decide)).trans hC1
  have hD2 : tfind pyhash t2 "d" = none := (ho2 "d" (by decide)).trans hD1
  have hE2 : tfind pyhash t2 "e" = none := (ho2 "e" (by decide)).trans hE1
  have hF2 : tfind pyhash t2 "f" = none := (ho2 "f" (by decide)).trans hF1
  have hG2 : tfind pyhash t2 "g" = none := (ho2 "g" (by decide)).trans hG1
  have hH2 : tfind pyhash t2 "h" = none := (ho2 "h" (by decide)).trans hH1
  have hZ2 : tfind pyhash t2 "z" = none := (ho2 "z" (by decide)).trans hZ1
  -- insert "c" ↦ 2 (load 2/8: no resize)
  have hrn2 : resizeNeeded t2 = false := by
    show decide (t2.load_factor < mkRat t2.size t2.table_size) = false
    rw [hl2', hsz2', hts2']
    decide
  obtain ⟨t3, hr3, hI3, hl3, hts3, hC3, ho3, hs3⟩ := mtSetItem_hashable hI2 hhc 2
  have hl3' : t3.load_factor = mkRat 3 4 := hl3.trans hl2'
  have hts3' : t3.table_size = 8 := by
    rw [hts3, hrn2, if_neg (by decide), hts2']
  have hsz3' : t3.size = 3 := by
    rw [hs3, hC2, hsz2']
    rfl
  have hA3 : tfind pyhash t3 "a" = some 0 := (ho3 "a" (by decide)).trans hA2
  have hB3 : tfind pyhash t3 "b" = some 1 := (ho3 "b" (by decide)).trans hB2
  have hD3 : tfind pyhash t3 "d" = none := (ho3 "d" (by decide)).trans hD2
  have hE3 : tfind pyhash t3 "e" = none := (ho3 "e" (by decide)).trans hE2
  have hF3 : tfind pyhash t3 "f" = none := (ho3 "f" (by decide)).trans hF2
  have hG3 : tfind pyhash t3 "g" = none := (ho3 "g" (by decide)).trans hG2
  have hH3 : tfind pyhash t3 "h" = none := (ho3 "h" (by decide)).trans hH2
  have hZ3 : tfind pyhash t3 "z" = none := (ho3 "z" (by decide)).trans hZ2
  -- insert "d" ↦ 3 (load 3/8: no resize)
  have hrn3 : resizeNeeded t3 = false := by
    show decide (t3.load_factor < mkRat t3.size t3.table_size) = false
    rw [hl3', hsz3', hts3']
    decide
  obtain ⟨t4, hr4, hI4, hl4, hts4, hD4, ho4, hs4⟩ := mtSetItem_hashable hI3 hhd 3
  have hl4' : t4.load_factor = mkRat 3 4 := hl4.trans hl3'
  have hts4' : t4.table_size = 8 := by
    rw [hts4, hrn3, if_neg (by decide), hts3']
  have hsz4' : t4.size = 4 := by
    rw [hs4, hD3, hsz3']
    rfl
  have hA4 : tfind pyhash t4 "a" = some 0 := (ho4 "a" (by decide)).trans hA3
  have hB4 : tfind pyhash t4 "b" = some 1 := (ho4 "b" (by decide)).trans hB3
  have hC4 : tfind pyhash t4 "c" = some 2 := (ho4 "c" (by decide)).trans hC3
  have hE4 : tfind pyhash t4 "e" = none := (ho4 "e" (by decide)).trans hE3
  have hF4 : tfind pyhash t4 "f" = none := (ho4 "f" (by decide)).trans hF3
  have hG4 : tfind pyhash t4 "g" = none := (ho4 "g" (by decide)).trans hG3
  have hH4 : tfind pyhash t4 "h" = none := (ho4 "h" (by decide)).trans hH3
  have hZ4 : tfind pyhash t4 "z" = none := (ho4 "z" (by decide)).trans hZ3
  -- insert "e" ↦ 4 (load 4/8: no resize)
  have hrn4 : resizeNeeded t4 = false := by
    show decide (t4.load_factor < mkRat t4.size t4.table_size) = false
    rw [hl4', hsz4', hts4']
    decide
  obtain ⟨t5, hr5, hI5, hl5, hts5, hE5, ho5, hs5⟩ := mtSetItem_hashable hI4 hhe 4
  have hl5' : t5.load_factor = mkRat 3 4 := hl5.trans hl4'
  have hts5' : t5.table_size = 8 := by
    rw [hts5, hrn4, if_neg (by decide), hts4']
  have hsz5' : t5.size = 5 := by
    rw [hs5, hE4, hsz4']
    rfl
  have hA5 : tfind pyhash t5 "a" = some 0 := (ho5 "a" (by decide)).trans hA4
  have hB5 : tfind pyhash t5 "b" = some 1 := (ho5 "b" (by decide)).trans hB4
  have hC5 : tfind pyhash t5 "c" = some 2 := (ho5 "c" (by decide)).trans hC4
  have hD5 : tfind pyhash t5 "d" = some 3 := (ho5 "d" (by decide)).trans hD4
  have hF5 : tfind pyhash t5 "f" = none := (ho5 "f" (by decide)).trans hF4
  have hG5 : tfind pyhash t5 "g" = none := (ho5 "g" (by decide)).trans hG4
  have hH5 : tfind pyhash t5 "h" = none := (ho5 "h" (by decide)).trans hH4
  have hZ5 : tfind pyhash t5 "z" = none := (ho5 "z" (by decide)).trans hZ4
  -- insert "f" ↦ 5 (load 5/8: no resize)
  have hrn5 : resizeNeeded t5 = false := by
    show decide (t5.load_factor < mkRat t5.size t5.table_size) = false
    rw [hl5', hsz5', hts5']
    decide
  obtain ⟨t6, hr6, hI6, hl6, hts6, hF6, ho6, hs6⟩ := mtSetItem_hashable hI5 hhf 5
  have hl6' : t6.load_factor = mkRat 3 4 := hl6.trans hl5'
  have hts6' : t6.table_size = 8 := by
    rw [hts6, hrn5, if_neg (by decide), hts5']
  have hsz6' : t6.size = 6 := by
    rw [hs6, hF5, hsz5']
    rfl
  have hA6 : tfind pyhash t6 "a" = some 0 := (ho6 "a" (by decide)).trans hA5
  have hB6 : tfind pyhash t6 "b" = some 1 := (ho6 "b" (by decide)).trans hB5
  have hC6 : tfind pyhash t6 "c" = some 2 := (ho6 "c" (by decide)).trans hC5
  have hD6 : tfind pyhash t6 "d" = some 3 := (ho6 "d" (by decide)).trans hD5
  have hE6 : tfind pyhash t6 "e" = some 4 := (ho6 "e" (by decide)).trans hE5
  have hG6 : tfind pyhash t6 "g" = none := (ho6 "g" (by decide)).trans hG5
  have hH6 : tfind pyhash t6 "h" = none := (ho6 "h" (by decide)).trans hH5
  have hZ6 : tfind pyhash t6 "z" = none := (ho6 "z" (by decide)).trans hZ5
  -- insert "g" ↦ 6 (this is the 7th insert: load 6/8 = 0.75, not > 0.75,
  -- so still no resize — where the original claim expected capacity 16)
  have hrn6 : resizeNeeded t6 = false := by
    show decide (t6.load_factor < mkRat t6.size t6.table_size) = false
    rw [hl6', hsz6', hts6']
    decide
  obtain ⟨t7, hr7, hI7, hl7, hts7, hG7, ho7, hs7⟩ := mtSetItem_hashable hI6 hhg 6
  have hl7' : t7.load_factor = mkRat 3 4 := hl7.trans hl6'
  have hts7' : t7.table_size = 8 := by
    rw [hts7, hrn6, if_neg (by decide), hts6']
  have hsz7' : t7.size = 7 := by
    rw [hs7, hG6, hsz6']
    rfl
  have hA7 : tfind pyhash t7 "a" = some 0 := (ho7 "a" (by decide)).trans hA6
  have hB7 : tfind pyhash t7 "b" = some 1 := (ho7 "b" (by decide)).trans hB6
  have hC7 : tfind pyhash t7 "c" = some 2 := (ho7 "c" (by decide)).trans hC6
  have hD7 : tfind pyhash t7 "d" = some 3 := (ho7 "d" (by decide)).trans hD6
  have hE7 : tfind pyhash t7 "e" = some 4 := (ho7 "e" (by decide)).trans hE6
  have hF7 : tfind pyhash t7 "f" = some 5 := (ho7 "f" (by decide)).trans hF6
  have hH7 : tfind pyhash t7 "h" = none := (ho7 "h" (by decide)).trans hH6
  have hZ7 : tfind pyhash t7 "z" = none := (ho7 "z" (by decide)).trans hZ6
  -- insert "h" ↦ 7 (the 8th insert: load 7/8 > 0.75 — resize to 16)
  have hrn7 : resizeNeeded t7 = true := by
    show decide (t7.load_factor < mkRat t7.size t7.table_size) = true
    rw [hl7', hsz7', hts7']
    decide
  obtain ⟨t8, hr8, hI8, hl8, hts8, hH8, ho8, hs8⟩ := mtSetItem_hashable hI7 hhi 7
  have hts8' : t8.table_size = 16 := by
    rw [hts8, hrn7, if_pos rfl, hts7']
  have hsz8' : t8.size = 8 := by
    rw [hs8, hH7, hsz7']
    rfl
  have hA8 : tfind pyhash t8 "a" = some 0 := (ho8 "a" (by decide)).trans hA7
  have hB8 : tfind pyhash t8 "b" = some 1 := (ho8 "b" (by decide)).trans hB7
  have hC8 : tfind pyhash t8 "c" = some 2 := (ho8 "c" (by decide)).trans hC7
  have hD8 : tfind pyhash t8 "d" = some 3 := (ho8 "d" (by decide)).trans hD7
  have hE8 : tfind pyhash t8 "e" = some 4 := (ho8 "e" (by decide)).trans hE7
  have hF8 : tfind pyhash t8 "f" = some 5 := (ho8 "f" (by decide)).trans hF7
  have hG8 : tfind pyhash t8 "g" = some 6 := (ho8 "g" (by decide)).trans hG7
  have hZ8 : tfind pyhash t8 "z" = none := (ho8 "z" (by decide)).trans hZ7
  have hga : getItem pyhash t8 "a" = .ok 0 := by rw [getItem_eq hI8 hha, hA8]
  have hgb : getItem pyhash t8 "b" = .ok 1 := by rw [getItem_eq hI8 hhb, hB8]
  have hgc : getItem pyhash t8 "c" = .ok 2 := by rw [getItem_eq hI8 hhc, hC8]
  have hgd : getItem pyhash t8 "d" = .ok 3 := by rw [getItem_eq hI8 hhd, hD8]
  have hge : getItem pyhash t8 "e" = .ok 4 := by rw [getItem_eq hI8 hhe, hE8]
  have hgf : getItem pyhash t8 "f" = .ok 5 := by rw [getItem_eq hI8 hhf, hF8]
  have hgg : getItem pyhash t8 "g" = .ok 6 := by rw [getItem_eq hI8 hhg, hG8]
  have hgh : getItem pyhash t8 "h" = .ok 7 := by rw [getItem_eq hI8 hhi, hH8]
  have hgz : getItem pyhash t8 "z" = .error .keyError := by
    rw [getItem_eq hI8 hhz, hZ8]
  exact ⟨t1, t2, t3, t4, t5, t6, t7, t8, hr1, hts1', hr2, hts2', hr3, hts3',
    hr4, hts4', hr5, hts5', hr6, hts6', hr7, hts7', hr8, hts8', hsz8',
    hga, hgb, hgc, hgd, hge, hgf, hgg, hgh, hgz⟩

/-- Counterexample to C1 as stated: running exactly the first seven inserts
of the scenario, the capacity recorded after every one of them — in
particular after the 7th — is still 8, not 16: the 7th insert does not
trigger a resize. -/
theorem C1_counterexample :
    mkTable 8 (mkRat 3 4) = .ok c1T0 ∧
    (mtRun c1Hash c1T0 c1Ops7).map Prod.snd = [8, 8, 8, 8, 8, 8, 8] ∧
    (mtRunTable c1Hash c1T0 c1Ops7).table_size ≠ 16 :=
  ⟨rfl, rfl, by decide⟩

/-- Witness for the amended C1 at the concrete constant hash. -/
theorem C1_witness :
    ∃ t1 t2 t3 t4 t5 t6 t7 t8 : Table String Nat,
      mtSetItem c1Hash c1T0 "a" 0 = (t1, none) ∧ t1.table_size = 8 ∧
      mtSetItem c1Hash t1 "b" 1 = (t2, none) ∧ t2.table_size = 8 ∧
      mtSetItem c1Hash t2 "c" 2 = (t3, none) ∧ t3.table_size = 8 ∧
      mtSetItem c1Hash t3 "d" 3 = (t4, none) ∧ t4.table_size = 8 ∧
      mtSetItem c1Hash t4 "e" 4 = (t5, none) ∧ t5.table_size = 8 ∧
      mtSetItem c1Hash t5 "f" 5 = (t6, none) ∧ t6.table_size = 8 ∧
      mtSetItem c1Hash t6 "g" 6 = (t7, none) ∧ t7.table_size = 8 ∧
      mtSetItem c1Hash t7 "h" 7 = (t8, none) ∧ t8.table_size = 16 ∧
      lenTable t8 = 8 ∧
      getItem c1Hash t8 "a" = .ok 0 ∧ getItem c1Hash t8 "b" = .ok 1 ∧
      getItem c1Hash t8 "c" = .ok 2 ∧ getItem c1Hash t8 "d" = .ok 3 ∧
      getItem c1Hash t8 "e" = .ok 4 ∧ getItem c1Hash t8 "f" = .ok 5 ∧
      getItem c1Hash t8 "g" = .ok 6 ∧ getItem c1Hash t8 "h" = .ok 7 ∧
      getItem c1Hash t8 "z" = .error .keyError :=
  C1_insert_scenario_amended c1Hash (fun _ => ⟨0, rfl⟩)
    (show mkTable 8 (mkRat 3 4) = Except.ok c1T0 from rfl)

/-- C2: for every well-formed table and every resize performed on it
(`ha_6._resize`; the program always calls it with `new_size = 2 *
table_size ≥ 2`, and any positive size is covered here), every key that was
inserted and not deleted before the resize is still retrievable with its
most recently set value afterwards (`getItem` and the observable map are
unchanged at every key), `len` is unchanged by the resize itself, and the
entry count is recomputed from scratch during the resize so that it equals
the number of re-inserted entries (`t'.size = (entries t').length`). -/
theorem C2_resize_preserves_data {t : Table Key Value} (hInv : Inv pyhash t)
    {newSize : Nat} (hn : 1 ≤ newSize) :
    ∃ t', mtResize pyhash t newSize = .ok t' ∧
      (∀ k, tfind pyhash t' k = tfind pyhash t k) ∧
      (∀ k, getItem pyhash t' k = getItem pyhash t k) ∧
      lenTable t' = lenTable t ∧
      t'.size = (entries t').length := by
  obtain ⟨t', hrun, hInv', hlf, hsz, htf, hts, hid, hcnt⟩ := mtResize_spec hInv hn
  refine ⟨t', hrun, htf, ?_, hsz, hcnt⟩
  intro k
  cases hh : pyhash k with
  | none => rw [getItem_unhashable hh, getItem_unhashable hh]
  | some h => rw [getItem_eq hInv' hh, getItem_eq hInv hh, htf k]

/-- Witness for C2: the one-entry table `exTable1` (above the load threshold)
resized to 4 keeps its data, its length and a consistent entry count. -/
theorem C2_witness :
    ∃ t', mtResize exHash exTable1 4 = .ok t' ∧
      (∀ k, tfind exHash t' k = tfind exHash exTable1 k) ∧
      (∀ k, getItem exHash t' k = getItem exHash exTable1 k) ∧
      lenTable t' = lenTable exTable1 ∧
      t'.size = (entries t').length :=
  C2_resize_preserves_data exTable1_inv (by omega)

/-- C3 (amended): `ha_6.__contains__` returns the membership boolean and
never fails for every hashable key; but for a non-hashable key the
`TypeError` raised by `hash(key)` propagates, because the `try` block
catches only `IndexError` — the original claim's "never fails with any
error" is false for unhashable keys. -/
theorem C3_contains_amended {t : Table Key Value} (hInv : Inv pyhash t) :
    (∀ k h, pyhash k = some h →
      mtContains pyhash t k = .ok (tfind pyhash t k).isSome) ∧
    (∀ k, pyhash k = none → mtContains pyhash t k = .error .typeError) :=
  ⟨fun _ _ hh => mtContains_eq hInv hh, fun _ hh => mtContains_unhashable hh⟩

/-- Counterexample to C3 as stated: on the fresh one-bucket table,
`__contains__` applied to an unhashable key (modelled by `-1` under
`exHash`) raises `TypeError` and does not return any boolean. -/
theorem C3_counterexample :
    mtContains exHash exTable0 (-1) = .error .typeError ∧
    ∀ b : Bool, mtContains exHash exTable0 (-1) ≠ .ok b := by
  refine ⟨rfl, ?_⟩
  intro b hc
  exact Except.noConfusion
    ((Eq.symm (rfl : mtContains exHash exTable0 (-1) = .error .typeError)).trans hc)

/-- Witness for the amended C3 at concrete inputs: a present hashable key, a
missing hashable key and an unhashable key on `exTable1`. -/
theorem C3_witness :
    mtContains exHash exTable1 0 = .ok (tfind exHash exTable1 0).isSome ∧
    mtContains exHash exTable1 3 = .ok (tfind exHash exTable1 3).isSome ∧
    mtContains exHash exTable1 (-1) = .error .typeError :=
  ⟨(C3_contains_amended exTable1_inv).1 0 0 rfl,
   (C3_contains_amended exTable1_inv).1 3 3 rfl,
   (C3_contains_amended exTable1_inv).2 (-1) rfl⟩

/-- C4 (amended): `ha_6._resize` performs no size validation at all and
never raises an `InvalidResizeError`-style error: if the load factor does
not exceed the threshold it returns silently leaving the table unchanged,
and otherwise it rehashes into the requested size even when that size is
not larger than the current capacity (the capacity can even shrink). -/
theorem C4_resize_no_validation {t : Table Key Value} (hInv : Inv pyhash t)
    {newSize : Nat} (hn : 1 ≤ newSize) :
    ∃ t', mtResize pyhash t newSize = .ok t' ∧
      (resizeNeeded t = false → t' = t) ∧
      (resizeNeeded t = true → t'.table_size = newSize) := by
  obtain ⟨t', hrun, hInv', hlf, hsz, htf, hts, hid, hcnt⟩ := mtResize_spec hInv hn
  refine ⟨t', hrun, hid, ?_⟩
  intro hr
  rw [hts, hr]
  simp

/-- The table produced by the shrinking resize of the C4 counterexample. -/
def c4Shrunk : Table Int Nat :=
  { size := 1, table_size := 1, load_factor := mkRat 1 4,
    buckets := [[(0, 5)]] }

/-- Counterexample to C4 as stated: requesting `_resize(1)` on `exTable2`
(capacity 2, above its load threshold) raises no error at all — it succeeds
and shrinks the capacity from 2 to 1. -/
theorem C4_counterexample :
    mtResize exHash exTable2 1 = .ok c4Shrunk ∧
    exTable2.table_size = 2 ∧ c4Shrunk.table_size = 1 ∧
    (∀ e, mtResize exHash exTable2 1 ≠ .error e) := by
  refine ⟨rfl, rfl, rfl, ?_⟩
  intro e hc
  exact Except.noConfusion
    ((Eq.symm (rfl : mtResize exHash exTable2 1 = .ok c4Shrunk)).trans hc)

/-- Witness for the amended C4 at the concrete shrinking request. -/
theorem C4_witness :
    ∃ t', mtResize exHash exTable2 1 = .ok t' ∧
      (resizeNeeded exTable2 = false → t' = exTable2) ∧
      (resizeNeeded exTable2 = true → t'.table_size = 1) :=
  C4_resize_no_validation exTable2_inv (by omega)

/-- C5: on a well-formed table, `ha_6.__setitem__` with a hashable key
always succeeds; afterwards `get` returns the newly set value.  If the key
was already present the value is replaced and `len` is unchanged; if it was
absent a new entry is added and `len` grows by exactly 1.  All other keys
are untouched. -/
theorem C5_set_semantics {t : Table Key Value} (hInv : Inv pyhash t)
    {k : Key} {h : Int} (hh : pyhash k = some h) (v : Value) :
    ∃ t', mtSetItem pyhash t k v = (t', none) ∧
      getItem pyhash t' k = .ok v ∧
      ((tfind pyhash t k).isSome = true → lenTable t' = lenTable t) ∧
      ((tfind pyhash t k).isSome = false → lenTable t' = lenTable t + 1) ∧
      (∀ k', k' ≠ k → tfind pyhash t' k' = tfind pyhash t k') := by
  obtain ⟨t', hrun, hInv', hlf, hts, hfk, hfo, hsz⟩ := mtSetItem_hashable hInv hh v
  refine ⟨t', hrun, ?_, ?_, ?_, hfo⟩
  · rw [getItem_eq hInv' hh, hfk]
  · intro hs
    simp [lenTable, hsz, hs]
  · intro hs
    simp [lenTable, hsz, hs]

/-- Witness for C5: inserting key 0 into the empty table and then updating
it, via two direct applications of the claim theorem. -/
theorem C5_witness :
    (∃ t', mtSetItem exHash exTable0 0 7 = (t', none) ∧
      getItem exHash t' 0 = .ok 7 ∧
      ((tfind exHash exTable0 0).isSome = true →
        lenTable t' = lenTable exTable0) ∧
      ((tfind exHash exTable0 0).isSome = false →
        lenTable t' = lenTable exTable0 + 1) ∧
      (∀ k', k' ≠ 0 → tfind exHash t' k' = tfind exHash exTable0 k')) ∧
    (∃ t', mtSetItem exHash exTable1 0 9 = (t', none) ∧
      getItem exHash t' 0 = .ok 9 ∧
      ((tfind exHash exTable1 0).isSome = true →
        lenTable t' = lenTable exTable1) ∧
      ((tfind exHash exTable1 0).isSome = false →
        lenTable t' = lenTable exTable1 + 1) ∧
      (∀ k', k' ≠ 0 → tfind exHash t' k' = tfind exHash exTable1 k')) :=
  ⟨C5_set_semantics exTable0_inv (show exHash 0 = some 0 from rfl) 7,
   C5_set_semantics exTable1_inv (show exHash 0 = some 0 from rfl) 9⟩

/-- C6: on a well-formed table and a hashable key, deleting a present key
removes exactly that entry (`contains` is false afterwards, other keys are
untouched), decrements `len` by exactly 1 and never changes the capacity
(`__delitem__` performs no resize check); `get` or `delete` on an absent
key fails with `KeyError` with no side effect — `delete` returns the table
exactly as it was, and `get` never mutates. -/
theorem C6_delete_semantics {t : Table Key Value} (hInv : Inv pyhash t)
    {k : Key} {h : Int} (hh : pyhash k = some h) :
    (∀ v, tfind pyhash t k = some v →
      ∃ t', delItem pyhash t k = (t', none) ∧
        mtContains pyhash t' k = .ok false ∧
        lenTable t' + 1 = lenTable t ∧
        t'.table_size = t.table_size ∧
        (∀ k', k' ≠ k → tfind pyhash t' k' = tfind pyhash t k')) ∧
    (tfind pyhash t k = none →
      delItem pyhash t k = (t, some .keyError) ∧
      getItem pyhash t k = .error .keyError) := by
  constructor
  · intro v hv
    obtain ⟨t', hrun, hInv', hts, hlf, hsz, hfk, hfo⟩ := delItem_present hInv hh hv
    refine ⟨t', hrun, ?_, hsz, hts, hfo⟩
    rw [mtContains_eq hInv' hh, hfk]
    rfl
  · intro hnone
    refine ⟨delItem_absent hInv hh hnone, ?_⟩
    rw [getItem_eq hInv hh, hnone]

/-- Witness for C6 on `exTable1`, whose key 0 is present (so the present
branch is exercised with `v = 5`) and whose key 3 is absent. -/
theorem C6_witness :
    ((∀ v, tfind exHash exTable1 0 = some v →
      ∃ t', delItem exHash exTable1 0 = (t', none) ∧
        mtContains exHash t' 0 = .ok false ∧
        lenTable t' + 1 = lenTable exTable1 ∧
        t'.table_size = exTable1.table_size ∧
        (∀ k', k' ≠ 0 → tfind exHash t' k' = tfind exHash exTable1 k')) ∧
     (tfind exHash exTable1 0 = none →
      delItem exHash exTable1 0 = (exTable1, some .keyError) ∧
      getItem exHash exTable1 0 = .error .keyError)) ∧
    ((∀ v, tfind exHash exTable1 3 = some v →
      ∃ t', delItem exHash exTable1 3 = (t', none) ∧
        mtContains exHash t' 3 = .ok false ∧
        lenTable t' + 1 = lenTable exTable1 ∧
        t'.table_size = exTable1.table_size ∧
        (∀ k', k' ≠ 3 → tfind exHash t' k' = tfind exHash exTable1 k')) ∧
     (tfind exHash exTable1 3 = none →
      delItem exHash exTable1 3 = (exTable1, some .keyError) ∧
      getItem exHash exTable1 3 = .error .keyError)) :=
  ⟨C6_delete_semantics exTable1_inv rfl, C6_delete_semantics exTable1_inv rfl⟩

/-- C7 (amended): `ha_6.__setitem__` with a non-hashable key fails with the
hash `TypeError`; no entry is added or changed and `len` is unchanged, and
for hashable keys `set` never fails.  However the original claim's "the
capacity is exactly as before the call" is false: the resize check runs
*before* the key is hashed, so a pending resize is still performed and the
capacity may grow (to `2 * table_size`) before the error is raised. -/
theorem C7_unhashable_set_amended {t : Table Key Value}
    (hInv : Inv pyhash t) (k : Key) (v : Value) :
    (pyhash k = none →
      ∃ t', mtSetItem pyhash t k v = (t', some .typeError) ∧
        lenTable t' = lenTable t ∧
        (∀ k', tfind pyhash t' k' = tfind pyhash t k') ∧
        t'.table_size =
          (if resizeNeeded t then t.table_size * 2 else t.table_size)) ∧
    (∀ h, pyhash k = some h → (mtSetItem pyhash t k v).2 = none) := by
  constructor
  · intro hh
    obtain ⟨t', hrun, hInv', hlf, hts, htf, hsz⟩ := mtSetItem_unhashable hInv hh v
    exact ⟨t', hrun, hsz, htf, hts⟩
  · intro h hh
    obtain ⟨t', hrun, _⟩ := mtSetItem_hashable hInv hh v
    rw [hrun]

/-- The post-state of the C7 counterexample: `exTable1` after the failing
`t[-1] = 99` — the pending resize to capacity 2 has happened. -/
def c7After : Table Int Nat :=
  { size := 1, table_size := 2, load_factor := mkRat 1 2,
    buckets := [[(0, 5)], []] }

/-- Counterexample to C7 as stated: on `exTable1` (above its load
threshold), `t[-1] = 99` with the unhashable key `-1` raises `TypeError`
but leaves the capacity at 2, not at the pre-call value 1 — a partial
mutation (the resize) does occur. -/
theorem C7_counterexample :
    mtSetItem exHash exTable1 (-1) 99 = (c7After, some .typeError) ∧
    exTable1.table_size = 1 ∧ c7After.table_size = 2 :=
  ⟨rfl, rfl, rfl⟩

/-- Witness for the amended C7 at the counterexample's inputs. -/
theorem C7_witness :
    ((exHash (-1) = none →
      ∃ t', mtSetItem exHash exTable1 (-1) 99 = (t', some .typeError) ∧
        lenTable t' = lenTable exTable1 ∧
        (∀ k', tfind exHash t' k' = tfind exHash exTable1 k') ∧
        t'.table_size =
          (if resizeNeeded exTable1 then exTable1.table_size * 2
           else exTable1.table_size)) ∧
     (∀ h, exHash (-1) = some h →
       (mtSetItem exHash exTable1 (-1) 99).2 = none)) :=
  C7_unhashable_set_amended exTable1_inv (-1) 99

/-- C8: the constructor (identical in `ha_5` and `ha_6`) fails with a
`ValueError` exactly when `initial_size < 1` or the load factor is not
strictly between 0 and 1; for every valid pair it succeeds and yields a
table with the requested capacity, the requested load factor and zero
entries (which moreover satisfies the table invariant). -/
theorem C8_constructor (pyhash : Key → Option Int) (initial_size : Int)
    (load_factor : ℚ) :
    ((∃ e, (mkTable initial_size load_factor :
        Except Err (Table Key Value)) = .error e) ↔
      (initial_size < 1 ∨ ¬(0 < load_factor ∧ load_factor < 1))) ∧
    (∀ t : Table Key Value, mkTable initial_size load_factor = .ok t →
      (t.table_size : Int) = initial_size ∧ t.load_factor = load_factor ∧
      lenTable t = 0 ∧ entries t = [] ∧ Inv pyhash t) := by
  constructor
  · constructor
    · rintro ⟨e, he⟩
      by_cases h1 : initial_size < 1
      · exact Or.inl h1
      · right
        intro h2
        rw [mkTable_ok (by omega) h2.1 h2.2] at he
        cases he
    · intro hbad
      rcases hbad with h1 | h2
      · exact ⟨.valueError, by rw [mkTable, if_pos h1]⟩
      · refine ⟨.valueError, ?_⟩
        rw [mkTable]
        by_cases h1 : initial_size < 1
        · rw [if_pos h1]
        · rw [if_neg h1, if_pos h2]
  · intro t hmk
    have hInv : Inv pyhash t := Inv_mkTable hmk
    rw [mkTable] at hmk
    by_cases h1 : initial_size < 1
    · rw [if_pos h1] at hmk
      cases hmk
    · rw [if_neg h1] at hmk
      by_cases h2 : 0 < load_factor ∧ load_factor < 1
      · rw [if_neg (not_not_intro h2)] at hmk
        cases hmk
        refine ⟨?_, rfl, rfl, ?_, hInv⟩
        · simp only []
          omega
        · simp [entries, flatten_replicate_nil]

      · rw [if_pos h2] at hmk
        cases hmk

/-- C9: starting from any freshly constructed table, after every sequence
of `set`/`get`/`delete`/`contains`/`len` operations (resizes happen inside
`set`), every live key appears at most once in the whole bucket array, and
every stored entry with key `k` sits in bucket `abs(hash(k)) % capacity`
under the currently installed capacity; the same holds again after any
further explicit resize. -/
theorem C9_bucket_invariant {initial_size : Int} {load_factor : ℚ}
    {t0 : Table Key Value} (hmk : mkTable initial_size load_factor = .ok t0)
    (ops : List (Op Key Value)) :
    (((entries (mtRunTable pyhash t0 ops)).map Prod.fst).Nodup) ∧
    (∀ i p, p ∈ bucketAt (mtRunTable pyhash t0 ops) i →
      ∃ h, pyhash p.1 = some h ∧
        h.natAbs % (mtRunTable pyhash t0 ops).table_size = i) ∧
    (∀ newSize t', 1 ≤ newSize →
      mtResize pyhash (mtRunTable pyhash t0 ops) newSize = .ok t' →
      ((entries t').map Prod.fst).Nodup ∧
      (∀ i p, p ∈ bucketAt t' i →
        ∃ h, pyhash p.1 = some h ∧ h.natAbs % t'.table_size = i)) := by
  have hInv : Inv pyhash (mtRunTable pyhash t0 ops) :=
    mtRunTable_inv (Inv_mkTable hmk) ops
  refine ⟨hInv.nodup, hInv.placed, ?_⟩
  intro newSize t' hn hrun
  obtain ⟨t'', hrun', hInv'', _⟩ := mtResize_spec hInv hn
  have heq : Except.ok t' = Except.ok t'' := hrun.symm.trans hrun'
  cases heq
  exact ⟨hInv''.nodup, hInv''.placed⟩

/-- The operation sequence of the C9 witness: inserts (one triggering a
resize), an update, a delete, a failed lookup and a length query. -/
def c9Ops : List (Op Int Nat) :=
  [.set 0 1, .set 1 2, .set 0 3, .del 1, .get 7, .contains 0, .len]

/-- Witness for C9: the invariant after running `c9Ops` from the concrete
one-bucket table. -/
theorem C9_witness :
    (((entries (mtRunTable exHash exTable0 c9Ops)).map Prod.fst).Nodup) ∧
    (∀ i p, p ∈ bucketAt (mtRunTable exHash exTable0 c9Ops) i →
      ∃ h, exHash p.1 = some h ∧
        h.natAbs % (mtRunTable exHash exTable0 c9Ops).table_size = i) ∧
    (∀ newSize t', 1 ≤ newSize →
      mtResize exHash (mtRunTable exHash exTable0 c9Ops) newSize = .ok t' →
      ((entries t').map Prod.fst).Nodup ∧
      (∀ i p, p ∈ bucketAt t' i →
        ∃ h, exHash p.1 = some h ∧ h.natAbs % t'.table_size = i)) :=
  C9_bucket_invariant exTable0_mk c9Ops

/-- C10 (amended): started from the same constructor arguments and using
the same hash function, a single-threaded run of the sequential
`ha_5.HashTable` and of the concurrent `ha_6.MultiThreadingHashTable`
produces identical observable results — the same returned values, the same
errors on the same calls and the same `len` after each step (whenever the
sequential run completes, i.e. its fuel-indexed recursion does not report
`fuelBudget`).  The original claim's "same capacity evolution" is false:
when a rehash re-crosses the load threshold, `ha_5._resize` cascades
through nested `__setitem__` resizes while `ha_6._resize` re-inserts
directly, so the capacities diverge (see the counterexample). -/
theorem C10_observable_equivalence {initial_size : Int} {load_factor : ℚ}
    {t0 : Table Key Value} (hmk : mkTable initial_size load_factor = .ok t0)
    (fuel : Nat) (ops : List (Op Key Value))
    (hnf : Out.err Err.fuelBudget ∉ (htRun pyhash fuel t0 ops).map Prod.fst) :
    (htRun pyhash fuel t0 ops).map Prod.fst =
      (mtRun pyhash t0 ops).map Prod.fst :=
  htRun_matches (Inv_mkTable hmk) (Inv_mkTable hmk) rfl (fun _ => rfl)
    fuel ops hnf

/-- The initial table of the C10 counterexample:
`(initial_size=1, load_factor=0.1)`. -/
def c10T0 : Table Int Nat :=
  { size := 0, table_size := 1, load_factor := mkRat 1 10, buckets := [[]] }

/-- The operations of the C10 counterexample: three inserts of distinct
keys. -/
def c10Ops : List (Op Int Nat) := [.set 1 1, .set 2 2, .set 3 3]

/-- Counterexample to C10 as stated: from identical constructor arguments
`(1, 0.1)` and the same hash function, after the third insert the
`ha_6` table has capacity 4 while the `ha_5` table has capacity 8 — during
the rehash of `{1, 2}` into capacity 4 the nested `self[2] = 2` sees load
`1/4 > 0.1` and cascades into a further resize.  The runs (outcome,
capacity-after-step) therefore differ. -/
theorem C10_counterexample :
    mkTable 1 (mkRat 1 10) = .ok c10T0 ∧
    mtRun exHash c10T0 c10Ops =
      [(.unit, 1), (.unit, 2), (.unit, 4)] ∧
    htRun exHash 5 c10T0 c10Ops =
      [(.unit, 1), (.unit, 2), (.unit, 8)] ∧
    mtRun exHash c10T0 c10Ops ≠ htRun exHash 5 c10T0 c10Ops := by
  refine ⟨rfl, rfl, rfl, ?_⟩
  intro hc
  have h1 : ([(.unit, 1), (.unit, 2), (.unit, 4)] :
      List (Out Nat × Nat)) = [(.unit, 1), (.unit, 2), (.unit, 8)] :=
    (Eq.symm (rfl : mtRun exHash c10T0 c10Ops =
        [(.unit, 1), (.unit, 2), (.unit, 4)])).trans
      (hc.trans (rfl : htRun exHash 5 c10T0 c10Ops =
        [(.unit, 1), (.unit, 2), (.unit, 8)]))
  simp at h1

/-- Witness for the amended C10 at the counterexample's inputs: with enough
fuel the `ha_5` run completes and the outcome sequences (without the
capacities) agree. -/
theorem C10_witness :
    (htRun exHash 5 c10T0 c10Ops).map Prod.fst =
      (mtRun exHash c10T0 c10Ops).map Prod.fst :=
  C10_observable_equivalence
    (show mkTable 1 (mkRat 1 10) = Except.ok c10T0 from rfl) 5 c10Ops
    (by decide)

end HashTableSpec
